import Mathlib

/-!
Verification of the nomen identity-consolidation and account-merge engine.

The program under study is a set of PostgreSQL tables and plpgsql functions
(migrations 001, 003, 006).  This file gives a shallow embedding of the
relevant tables as Lean lists of rows and of each plpgsql function as a pure
Lean function from database state to database state (plus a structured
result mirroring the function's JSON / RAISE outcome).  UUIDs and
timestamps are modelled as `Nat` (only equality and order on them matter);
JSON claim bags (`identity_data`) are association lists; SQL NULL becomes
`Option`.

Modelling conventions, stated once:
* each plpgsql function runs as a single transaction, so it is one Lean
  state transition; intermediate states are not observable;
* `gen_random_uuid()` / `DEFAULT now()` become explicit fresh-id and clock
  parameters, with freshness hypotheses where a theorem needs them;
* primary-key uniqueness (`id` columns) is carried as a `Nodup` hypothesis
  where a proof needs it, since every table declares `id` as PRIMARY KEY;
* `SELECT ... INTO` of zero rows leaves plpgsql variables NULL, which the
  embedding renders as `Option.none` flowing through the same branches the
  SQL takes;
* Postgres `DISTINCT ON (k) ... ORDER BY k, created_at ASC` returns, per
  group, the first row of the sort; ties on `created_at` are resolved by the
  position of the rows in the scan, which the embedding renders as the first
  row in table (list) order among those with minimal `created_at`;
* `AFTER INSERT OR UPDATE` row triggers on `auth.identities` run
  `sync_identity_to_profile` once per affected row; external identity
  writes invoke it through the embedding's callers, and the identity-move
  UPDATE inside `merge_profiles_internal` replays it explicitly
  (`replayTrigger`), once per moved row in table order, before the
  attribute move — exactly the firing discipline of Postgres row-level
  AFTER triggers.
-/

namespace Nomen

/-- One row of `public.profile_attributes` (migration 001, extended by 003
with a nullable `identity_id`). -/
structure PAttr where
  id : Nat
  profile_id : Nat
  identity_id : Option Nat
  attribute_key : String
  attribute_value : Option String
  source_provider : Option String
  is_preferred : Bool
  created_at : Nat
  updated_at : Nat
deriving Repr, DecidableEq

/-- One row of `public.profiles`: the denormalized aggregate plus the
append-only `merged_user_ids` audit trail added by migration 006. -/
structure Profile where
  id : Nat
  display_name : Option String
  primary_email : Option String
  merged_user_ids : List Nat
deriving Repr, DecidableEq

/-- One row of `public.users`: the Account record, 1:1 with an auth
principal, with a nullable reference to its Profile. -/
structure PubUser where
  id : Nat
  profile_id : Option Nat
deriving Repr, DecidableEq

/-- One row of `auth.identities`: an external login method bound to an
account, with its provider-supplied JSON claims. -/
structure Identity where
  id : Nat
  user_id : Nat
  provider : String
  provider_id : String
  identity_data : List (String × String)
deriving Repr, DecidableEq

/-- One row of `public.pending_merges` (migration 006): a pending merge
handshake with its single-use token and expiry. -/
structure MergeRequest where
  id : Nat
  requester_id : Nat
  token : Nat
  created_at : Nat
  expires_at : Nat
deriving Repr, DecidableEq

/-- The whole relational state the core touches.  `auth_users` keeps only
the ids of auth principals (the one field the core reads or deletes). -/
structure DB where
  auth_users : List Nat
  users : List PubUser
  profiles : List Profile
  profile_attributes : List PAttr
  identities : List Identity
  pending_merges : List MergeRequest
deriving Repr, DecidableEq

/-- JSON `->>` on a claims bag: value of the first binding of the key, NULL
when the key is absent. -/
def jsonGet : List (String × String) → String → Option String
  | [], _ => none
  | (k, v) :: rest, q => if k = q then some v else jsonGet rest q

/-- COALESCE(identity_data->>'full_name', ->>'name', ->>'display_name'). -/
def extractDisplayName (c : List (String × String)) : Option String :=
  jsonGet c "full_name" <|> jsonGet c "name" <|> jsonGet c "display_name"

/-- identity_data->>'email'. -/
def extractEmail (c : List (String × String)) : Option String :=
  jsonGet c "email"

/-- COALESCE(->>'preferred_username', ->>'user_name', ->>'login'). -/
def extractUsername (c : List (String × String)) : Option String :=
  jsonGet c "preferred_username" <|> jsonGet c "user_name" <|> jsonGet c "login"

/-- COALESCE(->>'avatar_url', ->>'picture'). -/
def extractAvatar (c : List (String × String)) : Option String :=
  jsonGet c "avatar_url" <|> jsonGet c "picture"

/-- The candidate claim value the sync trigger extracts for each of the four
fixed attribute keys. -/
def candidateFor (c : List (String × String)) (k : String) : Option String :=
  if k = "display_name" then extractDisplayName c
  else if k = "primary_email" then extractEmail c
  else if k = "username" then extractUsername c
  else if k = "avatar_url" then extractAvatar c
  else none

/-- The four fixed attribute keys of the preference bootstrap. -/
def fixedKeys : List String := ["display_name", "primary_email", "username", "avatar_url"]

/-- One conditional upsert block of `sync_identity_to_profile` (migration
003, identity-scoped version): skipped when the candidate is NULL or the
empty string; otherwise INSERT ... ON CONFLICT `(identity_id, attribute_key)`
DO UPDATE SET `attribute_value`, `updated_at` (note the conflict branch does
not change `profile_id` or `is_preferred`). -/
def upsertAttrStep (attrs : List PAttr) (pid iid : Nat) (key : String)
    (cand : Option String) (provider : String) (freshId now : Nat) : List PAttr :=
  match cand with
  | none => attrs
  | some v =>
    if v = "" then attrs
    else if attrs.any (fun a => a.identity_id == some iid && a.attribute_key == key) then
      attrs.map fun a =>
        if a.identity_id == some iid && a.attribute_key == key then
          { a with attribute_value := some v, updated_at := now }
        else a
    else
      attrs ++ [{ id := freshId, profile_id := pid, identity_id := some iid,
                  attribute_key := key, attribute_value := some v,
                  source_provider := some provider, is_preferred := false,
                  created_at := now, updated_at := now }]

/-- Whether some row of the profile's group for `key` is already preferred
(the NOT EXISTS subquery of the bootstrap). -/
def hasPreferred (attrs : List PAttr) (pid : Nat) (key : String) : Bool :=
  attrs.any fun a => a.profile_id == pid && a.attribute_key == key && a.is_preferred

/-- The profile's rows for one attribute key, in table order. -/
def rowsFor (attrs : List PAttr) (pid : Nat) (key : String) : List PAttr :=
  attrs.filter fun a => a.profile_id == pid && a.attribute_key == key

/-- First row, in list order, among those with minimal `created_at`: the row
`DISTINCT ON ... ORDER BY attribute_key, created_at ASC` hands back for one
group (ties on `created_at` fall to scan order; the SQL orders by nothing
finer). -/
def earliestRow : List PAttr → Option PAttr
  | [] => none
  | a :: rest =>
    match earliestRow rest with
    | none => some a
    | some b => if b.created_at < a.created_at then some b else some a

/-- The preference bootstrap restricted to one attribute key: if the group
already has a preferred row do nothing, else mark the winner preferred. -/
def bootstrapKey (attrs : List PAttr) (pid : Nat) (key : String) : List PAttr :=
  if hasPreferred attrs pid key then attrs
  else
    match earliestRow (rowsFor attrs pid key) with
    | none => attrs
    | some w =>
      attrs.map fun a =>
        if a.profile_id == pid && a.id == w.id then { a with is_preferred := true } else a

/-- The bootstrap UPDATE of `sync_identity_to_profile`, over the four fixed
keys (the groups are disjoint, so the per-key fold equals the single SQL
statement). -/
def bootstrapAll (attrs : List PAttr) (pid : Nat) : List PAttr :=
  fixedKeys.foldl (fun acc k => bootstrapKey acc pid k) attrs

/-- Value of the (at most one) preferred row of a group, as the aggregate
subquery reads it; `none` both when no preferred row exists and when its
`attribute_value` is NULL, matching COALESCE behaviour. -/
def preferredValue (attrs : List PAttr) (pid : Nat) (key : String) : Option String :=
  (attrs.find? fun a => a.profile_id == pid && a.attribute_key == key && a.is_preferred).bind
    (·.attribute_value)

/-- The final aggregate UPDATE of `sync_identity_to_profile`: copy the
preferred display name / email onto the profile row, keeping the old value
when no preferred row (or a NULL value) exists. -/
def syncAggregate (db : DB) (pid : Nat) : DB :=
  { db with
    profiles := db.profiles.map fun p =>
      if p.id == pid then
        { p with
          display_name := (preferredValue db.profile_attributes pid "display_name").orElse
            (fun _ => p.display_name),
          primary_email := (preferredValue db.profile_attributes pid "primary_email").orElse
            (fun _ => p.primary_email) }
      else p }

/-- The four conditional upserts of the sync trigger, in statement order.
Fresh ids `freshAttr .. freshAttr+3` stand in for `gen_random_uuid()` on the
four possible inserts. -/
def upsertChain (attrs : List PAttr) (idRow : Identity) (pid freshAttr now : Nat) :
    List PAttr :=
  upsertAttrStep
    (upsertAttrStep
      (upsertAttrStep
        (upsertAttrStep attrs pid idRow.id "display_name"
          (extractDisplayName idRow.identity_data) idRow.provider freshAttr now)
        pid idRow.id "primary_email"
        (extractEmail idRow.identity_data) idRow.provider (freshAttr + 1) now)
      pid idRow.id "username"
      (extractUsername idRow.identity_data) idRow.provider (freshAttr + 2) now)
    pid idRow.id "avatar_url"
    (extractAvatar idRow.identity_data) idRow.provider (freshAttr + 3) now

/-- Attribute-upsert, bootstrap and aggregate phase of the sync trigger,
once the profile id is known. -/
def syncAttrs (db : DB) (idRow : Identity) (pid freshAttr now : Nat) : DB :=
  syncAggregate
    { db with profile_attributes :=
        bootstrapAll (upsertChain db.profile_attributes idRow pid freshAttr now) pid }
    pid

/-- Defensive prelude of the sync trigger: insert the `public.users` row
when it does not exist yet (triggers may fire before `handle_new_user`). -/
def ensureUser (db : DB) (uid : Nat) : DB :=
  if db.users.any (fun u => u.id == uid) then db
  else { db with users := db.users ++ [{ id := uid, profile_id := none }] }

/-- Profile-creation path of the sync trigger: insert a Profile seeded
straight from the claims (even empty-string claim values are seeded here,
the SQL INSERT has no emptiness guard) and point the users row at it. -/
def seedProfile (db : DB) (idRow : Identity) (freshProfile : Nat) : DB :=
  { db with
    profiles := db.profiles ++
      [{ id := freshProfile, display_name := extractDisplayName idRow.identity_data,
         primary_email := extractEmail idRow.identity_data, merged_user_ids := [] }],
    users := db.users.map fun u =>
      if u.id == idRow.user_id then { u with profile_id := some freshProfile } else u }

/-- The trigger `sync_identity_to_profile` (migration 003, identity-scoped
version), fired AFTER INSERT OR UPDATE on `auth.identities` with the new
identity row: ensure the `public.users` row exists, create and link a
Profile when the account has none, then upsert attributes, run the
preference bootstrap and refresh the aggregate. -/
def sync_identity_to_profile (db : DB) (idRow : Identity)
    (freshProfile freshAttr now : Nat) : DB :=
  match ((ensureUser db idRow.user_id).users.find?
      (fun u => u.id == idRow.user_id)).bind (·.profile_id) with
  | some pid => syncAttrs (ensureUser db idRow.user_id) idRow pid freshAttr now
  | none =>
    syncAttrs (seedProfile (ensureUser db idRow.user_id) idRow freshProfile) idRow
      freshProfile freshAttr now

/-- Error taxonomy of `set_preferred_attribute`.  The function's only RAISE
is `EXCEPTION 'Unauthorized'`; `NotFound` is the spec taxonomy's class for
an absent resource, carried here so the two outcomes stay distinguishable
in statements. -/
inductive PrefError where
  | Unauthorized
  | NotFound
deriving Repr, DecidableEq

/-- First UPDATE of `set_preferred_attribute` (migration 003 version):
unset `is_preferred` on every row of the `(profile_id, attribute_key)`
group. -/
def unsetGroup (attrs : List PAttr) (pid : Nat) (key : String) : List PAttr :=
  attrs.map fun r =>
    if r.profile_id == pid && r.attribute_key == key then { r with is_preferred := false }
    else r

/-- Second UPDATE of `set_preferred_attribute`: set `is_preferred` on the
row with the given id. -/
def setRow (attrs : List PAttr) (attr_id : Nat) : List PAttr :=
  attrs.map fun r =>
    if r.id == attr_id then { r with is_preferred := true } else r

/-- State written by the authorized path of `set_preferred_attribute`:
unset the group, set the target row, then copy the target row's value onto
the profile aggregate when the key is `display_name` or `primary_email`
(in the SQL, three UPDATE statements of one transaction). -/
def applyPreference (db : DB) (a : PAttr) (attr_id : Nat) : DB :=
  { db with
    profile_attributes :=
      setRow (unsetGroup db.profile_attributes a.profile_id a.attribute_key) attr_id,
    profiles := db.profiles.map fun p =>
      if p.id == a.profile_id then
        { p with
          display_name :=
            if a.attribute_key == "display_name" then
              (((setRow (unsetGroup db.profile_attributes a.profile_id a.attribute_key)
                attr_id).find? fun r => r.id == attr_id).bind (·.attribute_value))
            else p.display_name,
          primary_email :=
            if a.attribute_key == "primary_email" then
              (((setRow (unsetGroup db.profile_attributes a.profile_id a.attribute_key)
                attr_id).find? fun r => r.id == attr_id).bind (·.attribute_value))
            else p.primary_email }
      else p }

/-- RPC body of `set_preferred_attribute`: the SELECT INTO, the ownership
EXISTS check (an absent attribute leaves the looked-up profile id NULL, so
the check fails and the function raises 'Unauthorized'), then the three
UPDATE statements of the authorized path. -/
def set_preferred_attribute (db : DB) (caller : Nat) (attr_id : Nat) :
    Except PrefError DB :=
  match db.profile_attributes.find? (fun a => a.id == attr_id) with
  | none => .error .Unauthorized
  | some a =>
    if db.users.any (fun u => u.id == caller && u.profile_id == some a.profile_id) then
      .ok (applyPreference db a attr_id)
    else .error .Unauthorized

/-- Failure messages of the two merge functions, one constructor per
distinct `json_build_object('error', ...)` string. -/
inductive MergeError where
  | SameUser
  | TargetNoProfile
  | SourceNoProfile
  | SameProfile
deriving Repr, DecidableEq

/-- The success JSON of `merge_profiles_internal`. -/
structure MergeOk where
  target_profile_id : Nat
  source_profile_deleted : Nat
  attributes_merged : Nat
  identities_moved : Nat
  source_user_deleted : Nat
deriving Repr, DecidableEq

/-- Strict upper bound on the attribute ids in use: the canonical rendering
of `gen_random_uuid()` freshness for rows the replayed trigger inserts. -/
def maxAttrId (attrs : List PAttr) : Nat :=
  attrs.foldr (fun a m => max a.id m) 0

/-- Strict upper bound on the profile ids in use. -/
def maxProfileId (ps : List Profile) : Nat :=
  ps.foldr (fun p m => max p.id m) 0

/-- Replay of the `on_identity_updated` AFTER UPDATE row trigger: after an
UPDATE of `auth.identities`, `sync_identity_to_profile` fires once per
updated row, in table order, each invocation seeing the effects of the
whole UPDATE and of the previously fired invocations.  Fresh ids for rows
a replayed invocation may insert are taken just above every id in use
(`gen_random_uuid()` returns fresh ids; NOW() is constant inside the
transaction, so every invocation shares the merge's clock). -/
def replayTrigger (db : DB) (rows : List Identity) (now : Nat) : DB :=
  rows.foldl
    (fun acc i =>
      sync_identity_to_profile acc i (maxProfileId acc.profiles + 1)
        (maxAttrId acc.profile_attributes + 1) now)
    db

/-- Internal destructive merge `merge_profiles_internal(target, source)`
(migration 006): after the four precondition checks it moves every identity
of the source account to the target account — an UPDATE on
`auth.identities` that fires the `on_identity_updated` trigger once per
moved row, re-running `sync_identity_to_profile` for the target before the
attributes move — then re-parents every attribute of the source profile to
the target profile forcing `is_preferred = FALSE`, appends the source
account id to the target profile's `merged_user_ids`, and deletes the
source profile, the source `public.users` row and the source `auth.users`
row.  Declared ON DELETE actions are applied with each delete: the profile
delete sets dangling `users.profile_id` to NULL and cascades to its
remaining attributes; the auth-user delete cascades to `public.users`, to
`auth.identities` and to `pending_merges.requester_id`. -/
def merge_profiles_internal (db : DB) (target source now : Nat) :
    Except MergeError MergeOk × DB :=
  if target = source then (.error .SameUser, db)
  else
    match (db.users.find? (fun u => u.id == target)).bind (·.profile_id) with
    | none => (.error .TargetNoProfile, db)
    | some tpid =>
      match (db.users.find? (fun u => u.id == source)).bind (·.profile_id) with
      | none => (.error .SourceNoProfile, db)
      | some spid =>
        if tpid = spid then (.error .SameProfile, db)
        else
          let moved := (db.identities.filter (fun i => i.user_id == source)).length
          let ids1 := db.identities.map fun i =>
            if i.user_id == source then { i with user_id := target } else i
          let db2 := replayTrigger { db with identities := ids1 }
            ((db.identities.filter (fun i => i.user_id == source)).map
              (fun i => { i with user_id := target })) now
          let merged := (db2.profile_attributes.filter (fun a => a.profile_id == spid)).length
          let at1 := db2.profile_attributes.map fun a =>
            if a.profile_id == spid then
              { a with profile_id := tpid, is_preferred := false, updated_at := now }
            else a
          let pr1 := db2.profiles.map fun p =>
            if p.id == tpid then { p with merged_user_ids := p.merged_user_ids ++ [source] }
            else p
          let pr2 := pr1.filter fun p => !(p.id == spid)
          let us1 := db2.users.map fun u =>
            if u.profile_id == some spid then { u with profile_id := none } else u
          let at2 := at1.filter fun a => !(a.profile_id == spid)
          let us2 := us1.filter fun u => !(u.id == source)
          let au1 := db2.auth_users.filter fun a => !(a == source)
          let ids2 := db2.identities.filter fun i => !(i.user_id == source)
          let pm1 := db2.pending_merges.filter fun m => !(m.requester_id == source)
          (.ok { target_profile_id := tpid, source_profile_deleted := spid,
                 attributes_merged := merged, identities_moved := moved,
                 source_user_deleted := source },
           { auth_users := au1, users := us2, profiles := pr2,
             profile_attributes := at2, identities := ids2, pending_merges := pm1 })

/-- Success JSON of the legacy `merge_profiles`. -/
structure LegacyMergeOk where
  target_profile_id : Nat
  source_profile_deleted : Nat
  attributes_merged : Nat
  source_user_id : Nat
deriving Repr, DecidableEq

/-- Legacy non-destructive merge `merge_profiles(target, source)` (migration
006, first variant): same profile resolution and checks, moves the source
profile's attributes to the target profile with `is_preferred = FALSE`,
re-points the source users row at the target profile, appends the source
account id to `merged_user_ids` and deletes the now-orphaned source
profile (with its ON DELETE actions); both accounts stay alive. -/
def merge_profiles (db : DB) (target source now : Nat) :
    Except MergeError LegacyMergeOk × DB :=
  match (db.users.find? (fun u => u.id == target)).bind (·.profile_id) with
  | none => (.error .TargetNoProfile, db)
  | some tpid =>
    match (db.users.find? (fun u => u.id == source)).bind (·.profile_id) with
    | none => (.error .SourceNoProfile, db)
    | some spid =>
      if tpid = spid then (.error .SameProfile, db)
      else
        let merged := (db.profile_attributes.filter (fun a => a.profile_id == spid)).length
        let at1 := db.profile_attributes.map fun a =>
          if a.profile_id == spid then
            { a with profile_id := tpid, is_preferred := false, updated_at := now }
          else a
        let us1 := db.users.map fun u =>
          if u.id == source then { u with profile_id := some tpid } else u
        let pr1 := db.profiles.map fun p =>
          if p.id == tpid then { p with merged_user_ids := p.merged_user_ids ++ [source] }
          else p
        let pr2 := pr1.filter fun p => !(p.id == spid)
        let us2 := us1.map fun u =>
          if u.profile_id == some spid then { u with profile_id := none } else u
        let at2 := at1.filter fun a => !(a.profile_id == spid)
        (.ok { target_profile_id := tpid, source_profile_deleted := spid,
               attributes_merged := merged, source_user_id := source },
         { db with users := us2, profiles := pr2, profile_attributes := at2 })

/-- RPC `create_merge_request()` run as `caller`: delete every pending merge
request of the caller, then insert a fresh one with a new token and a
10-minute TTL (`expiryTTL` time units here); returns the token. -/
def expiryTTL : Nat := 600

def create_merge_request (db : DB) (caller freshId freshToken now : Nat) : Nat × DB :=
  let cleared := db.pending_merges.filter fun m => !(m.requester_id == caller)
  (freshToken,
   { db with pending_merges := cleared ++
       [{ id := freshId, requester_id := caller, token := freshToken,
          created_at := now, expires_at := now + expiryTTL }] })

/-- Lookup a live (unexpired) merge request by token, the shared
`SELECT requester_id ... WHERE token = p_token AND expires_at > NOW()`. -/
def findLiveRequest (db : DB) (token now : Nat) : Option MergeRequest :=
  db.pending_merges.find? fun m => m.token == token && decide (now < m.expires_at)

/-- Outcomes of `get_merge_requester_info`, one constructor per JSON shape. -/
inductive InfoResult where
  | NotFound
  | SameUser
  | Ok (requester_id : Nat) (display_name : Option String) (email : Option String)
deriving Repr, DecidableEq

/-- RPC `get_merge_requester_info(token)` run as `caller`: a read-only
lookup — every statement in its body is a SELECT, so the state passes
through each branch untouched; returns NotFound for a missing or expired
token, the distinguished same-user marker when the requester is the caller,
else the requester's profile display name and email. -/
def get_merge_requester_info (db : DB) (caller token now : Nat) : InfoResult × DB :=
  match findLiveRequest db token now with
  | none => (.NotFound, db)
  | some m =>
    if m.requester_id = caller then (.SameUser, db)
    else
      match (db.users.find? (fun u => u.id == m.requester_id)).bind (·.profile_id) with
      | none => (.Ok m.requester_id none none, db)
      | some pid =>
        match db.profiles.find? (fun p => p.id == pid) with
        | none => (.Ok m.requester_id none none, db)
        | some p => (.Ok m.requester_id p.display_name p.primary_email, db)

/-- RPC `cancel_merge_request(token)`: unconditionally delete any pending
merge request carrying the token (idempotent). -/
def cancel_merge_request (db : DB) (token : Nat) : DB :=
  { db with pending_merges := db.pending_merges.filter fun m => !(m.token == token) }

/-- Outcomes of `execute_merge_with_token`, one constructor per distinct
JSON error (`SameUser` is the 'Cannot merge account with itself' message,
the InvalidMerge class of the spec). -/
inductive TokenResult where
  | NotFound
  | SameUser
  | MergeFailed (e : MergeError)
  | Ok (r : MergeOk)
deriving Repr, DecidableEq

/-- RPC `execute_merge_with_token(token)` run as `caller`: look the token up
(NotFound when missing or expired), then DELETE the pending request before
anything else (single-use, even on failure), then refuse the same-user case,
else run `merge_profiles_internal` with the requester as target and the
caller as source. -/
def execute_merge_with_token (db : DB) (caller token now : Nat) :
    TokenResult × DB :=
  match findLiveRequest db token now with
  | none => (.NotFound, db)
  | some m =>
    let db1 := { db with pending_merges := db.pending_merges.filter fun r => !(r.token == token) }
    if m.requester_id = caller then (.SameUser, db1)
    else
      match merge_profiles_internal db1 m.requester_id caller now with
      | (.error e, db2) => (.MergeFailed e, db2)
      | (.ok r, db2) => (.Ok r, db2)

/-! Derived state predicates the claims quantify over. -/

/-- Membership test of the preferred-row group `(profile_id, attribute_key)`:
the predicate of the partial unique index `idx_profile_attributes_preferred`. -/
def prefGroup (pid : Nat) (key : String) (a : PAttr) : Bool :=
  a.profile_id == pid && a.attribute_key == key && a.is_preferred

/-- Number of preferred rows of one `(profile_id, attribute_key)` group. -/
def prefCount (l : List PAttr) (pid : Nat) (key : String) : Nat :=
  l.countP (prefGroup pid key)

/-- The preferred-uniqueness invariant: at most one preferred row per
`(profile_id, attribute_key)` group. -/
def AtMostOnePref (l : List PAttr) : Prop :=
  ∀ pid key, prefCount l pid key ≤ 1

/-- Projection of an attribute row onto everything except the mutable
preference flag and `updated_at`: the identity-supplied data of the row. -/
def attrData (a : PAttr) : Nat × Nat × Option Nat × String × Option String × Option String :=
  (a.id, a.profile_id, a.identity_id, a.attribute_key, a.attribute_value, a.source_provider)

/-- The identity-supplied data of a profile-attribute table restricted to
one attribute key, in table order. -/
def keyData (l : List PAttr) (key : String) :
    List (Nat × Nat × Option Nat × String × Option String × Option String) :=
  (l.filter fun a => a.attribute_key == key).map attrData

/-! Generic counting lemmas used by the preservation proofs. -/

theorem countP_map_eq_of {α : Type} (l : List α) (f : α → α) (p : α → Bool)
    (h : ∀ a ∈ l, p (f a) = p a) : (l.map f).countP p = l.countP p := by
  induction l with
  | nil => rfl
  | cons x xs ih =>
    simp only [List.map_cons, List.countP_cons]
    rw [ih fun a ha => h a (List.mem_cons_of_mem x ha), h x (List.mem_cons_self x xs)]

theorem countP_map_le_of {α : Type} (l : List α) (f : α → α) (p q : α → Bool)
    (h : ∀ a ∈ l, p (f a) = true → q a = true) : (l.map f).countP p ≤ l.countP q := by
  rw [List.countP_map]
  exact List.countP_mono_left fun a ha hpa => h a ha hpa

theorem countP_map_zero_of {α : Type} (l : List α) (f : α → α) (p : α → Bool)
    (h : ∀ a ∈ l, p (f a) = false) : (l.map f).countP p = 0 := by
  induction l with
  | nil => rfl
  | cons x xs ih =>
    simp only [List.map_cons, List.countP_cons, h x (List.mem_cons_self x xs)]
    simpa using ih fun a ha => h a (List.mem_cons_of_mem x ha)

theorem countP_filter_le {α : Type} (l : List α) (q p : α → Bool) :
    (l.filter q).countP p ≤ l.countP p := by
  rw [List.countP_filter]
  exact List.countP_mono_left fun a ha hpa => by
    simp only [Bool.and_eq_true] at hpa
    exact hpa.1

theorem countP_eq_zero_iff {α : Type} (l : List α) (p : α → Bool) :
    l.countP p = 0 ↔ ∀ a ∈ l, p a = false := by
  rw [List.countP_eq_zero]
  constructor
  · intro h a ha; exact Bool.not_eq_true _ |>.mp (h a ha)
  · intro h a ha; simp [h a ha]

theorem one_le_countP_of_mem {α : Type} {l : List α} {a : α} {p : α → Bool}
    (ha : a ∈ l) (hp : p a = true) : 1 ≤ l.countP p := by
  have : 0 < l.countP p := List.countP_pos_iff.mpr ⟨a, ha, hp⟩
  omega

/-- Rows of a table with `Nodup` ids are determined by their id. -/
theorem eq_of_nodup_ids {l : List PAttr} (h : (l.map (·.id)).Nodup)
    {a b : PAttr} (ha : a ∈ l) (hb : b ∈ l) (hid : a.id = b.id) : a = b := by
  induction l with
  | nil => cases ha
  | cons x xs ih =>
    simp only [List.map_cons, List.nodup_cons] at h
    rcases List.mem_cons.mp ha with rfl | ha' <;> rcases List.mem_cons.mp hb with rfl | hb'
    · rfl
    · exact absurd (hid ▸ List.mem_map_of_mem (·.id) hb') h.1
    · exact absurd (hid ▸ List.mem_map_of_mem (·.id) ha') h.1
    · exact ih h.2 ha' hb'

/-- In a table with `Nodup` ids, at most one row carries a given id. -/
theorem countP_id_le_one {l : List PAttr} (h : (l.map (·.id)).Nodup) (wid : Nat) :
    l.countP (fun a => a.id == wid) ≤ 1 := by
  induction l with
  | nil => simp
  | cons x xs ih =>
    simp only [List.map_cons, List.nodup_cons] at h
    by_cases hx : x.id = wid
    · have hz : xs.countP (fun a => a.id == wid) = 0 := by
        rw [countP_eq_zero_iff]
        intro a ha
        by_contra hc
        simp only [Bool.not_eq_false, beq_iff_eq] at hc
        exact h.1 (by rw [← hx, ← hc] at *; exact List.mem_map_of_mem (·.id) ha)
      simp [List.countP_cons, hx, hz]
    · have := ih h.2
      simp only [List.countP_cons, beq_iff_eq, hx]
      simpa using this

/-- A map that fixes every id fixes the id column. -/
theorem map_ids_eq_of {l : List PAttr} {f : PAttr → PAttr}
    (h : ∀ a ∈ l, (f a).id = a.id) : (l.map f).map (·.id) = l.map (·.id) := by
  rw [List.map_map]
  exact List.map_congr_left fun a ha => h a ha

/-! Preservation lemmas for the pieces of the sync trigger. -/

/-- An upsert never changes any group's number of preferred rows: the
insert arrives with `is_preferred = FALSE` and the conflict branch only
touches `attribute_value` / `updated_at`. -/
theorem upsertAttrStep_prefCount (attrs : List PAttr) (pid iid : Nat) (key : String)
    (cand : Option String) (prov : String) (fid now : Nat) (pid' : Nat) (key' : String) :
    prefCount (upsertAttrStep attrs pid iid key cand prov fid now) pid' key' =
      prefCount attrs pid' key' := by
  cases cand with
  | none => rfl
  | some v =>
    unfold upsertAttrStep
    dsimp only
    by_cases hv : v = ""
    · simp [hv]
    · rw [if_neg hv]
      by_cases hc : (attrs.any fun a => a.identity_id == some iid && a.attribute_key == key) = true
      · rw [if_pos hc]
        apply countP_map_eq_of
        intro a _
        by_cases h : (a.identity_id == some iid && a.attribute_key == key) = true
        · rw [if_pos h]; rfl
        · rw [if_neg h]
      · rw [if_neg hc]
        unfold prefCount
        rw [List.countP_append]
        simp [prefGroup]

/-- The id column after an upsert: unchanged, or extended with the fresh id. -/
theorem upsertAttrStep_ids (attrs : List PAttr) (pid iid : Nat) (key : String)
    (cand : Option String) (prov : String) (fid now : Nat) :
    (upsertAttrStep attrs pid iid key cand prov fid now).map (·.id) = attrs.map (·.id) ∨
    (upsertAttrStep attrs pid iid key cand prov fid now).map (·.id) =
      attrs.map (·.id) ++ [fid] := by
  cases cand with
  | none => exact .inl rfl
  | some v =>
    unfold upsertAttrStep
    dsimp only
    by_cases hv : v = ""
    · rw [if_pos hv]; exact .inl rfl
    · rw [if_neg hv]
      by_cases hc : (attrs.any fun a => a.identity_id == some iid && a.attribute_key == key) = true
      · rw [if_pos hc]
        exact .inl (map_ids_eq_of fun a _ => by split <;> rfl)
      · rw [if_neg hc]
        exact .inr (by simp)

/-- Fresh-id discipline: an upsert with a fresh id keeps the id column
`Nodup` and bounded. -/
theorem upsertAttrStep_nodup_bound (attrs : List PAttr) (pid iid : Nat) (key : String)
    (cand : Option String) (prov : String) (fid now : Nat)
    (hn : (attrs.map (·.id)).Nodup) (hb : ∀ a ∈ attrs, a.id < fid) :
    ((upsertAttrStep attrs pid iid key cand prov fid now).map (·.id)).Nodup ∧
    (∀ a ∈ upsertAttrStep attrs pid iid key cand prov fid now, a.id < fid + 1) := by
  rcases upsertAttrStep_ids attrs pid iid key cand prov fid now with h | h
  · refine ⟨h ▸ hn, fun a ha => ?_⟩
    have hmem : a.id ∈ attrs.map (·.id) := h ▸ List.mem_map_of_mem (·.id) ha
    rcases List.mem_map.mp hmem with ⟨b, hbm, hid⟩
    have := hb b hbm
    omega
  · constructor
    · rw [h, List.nodup_append]
      refine ⟨hn, List.nodup_singleton _, ?_⟩
      intro x hx hx'
      rcases List.mem_map.mp hx with ⟨b, hbm, rfl⟩
      simp only [List.mem_singleton] at hx'
      have := hb b hbm
      omega
    · intro a ha
      have hmem : a.id ∈ attrs.map (·.id) ++ [fid] := h ▸ List.mem_map_of_mem (·.id) ha
      rcases List.mem_append.mp hmem with hx | hx
      · rcases List.mem_map.mp hx with ⟨b, hbm, hid⟩
        have := hb b hbm
        omega
      · simp only [List.mem_singleton] at hx
        omega

/-- The upsert chain changes no group's preferred count. -/
theorem upsertChain_prefCount (attrs : List PAttr) (idRow : Identity)
    (pid fa now : Nat) (pid' : Nat) (key' : String) :
    prefCount (upsertChain attrs idRow pid fa now) pid' key' = prefCount attrs pid' key' := by
  unfold upsertChain
  rw [upsertAttrStep_prefCount, upsertAttrStep_prefCount, upsertAttrStep_prefCount,
    upsertAttrStep_prefCount]

/-- The upsert chain keeps the id column `Nodup` when the fresh ids are
above every existing id. -/
theorem upsertChain_nodup (attrs : List PAttr) (idRow : Identity) (pid fa now : Nat)
    (hn : (attrs.map (·.id)).Nodup) (hb : ∀ a ∈ attrs, a.id < fa) :
    ((upsertChain attrs idRow pid fa now).map (·.id)).Nodup := by
  unfold upsertChain
  obtain ⟨n1, b1⟩ := upsertAttrStep_nodup_bound attrs pid idRow.id "display_name"
    (extractDisplayName idRow.identity_data) idRow.provider fa now hn hb
  obtain ⟨n2, b2⟩ := upsertAttrStep_nodup_bound _ pid idRow.id "primary_email"
    (extractEmail idRow.identity_data) idRow.provider (fa + 1) now n1 b1
  obtain ⟨n3, b3⟩ := upsertAttrStep_nodup_bound _ pid idRow.id "username"
    (extractUsername idRow.identity_data) idRow.provider (fa + 2) now n2 b2
  obtain ⟨n4, _⟩ := upsertAttrStep_nodup_bound _ pid idRow.id "avatar_url"
    (extractAvatar idRow.identity_data) idRow.provider (fa + 3) now n3 b3
  exact n4

/-- `hasPreferred` is the emptiness test of the group's preferred count. -/
theorem hasPreferred_false_iff (attrs : List PAttr) (pid : Nat) (key : String) :
    hasPreferred attrs pid key = false ↔ prefCount attrs pid key = 0 := by
  unfold hasPreferred prefCount
  rw [countP_eq_zero_iff, List.any_eq_false]
  constructor
  · intro h a ha
    have h2 := h a ha
    unfold prefGroup
    exact Bool.eq_false_iff.mpr h2
  · intro h a ha
    have h2 := h a ha
    unfold prefGroup at h2
    simp [h2]

/-! Facts about the bootstrap's deterministic winner. -/

theorem earliestRow_eq_none {l : List PAttr} (h : earliestRow l = none) : l = [] := by
  cases l with
  | nil => rfl
  | cons a rest =>
    unfold earliestRow at h
    revert h
    cases earliestRow rest with
    | none =>
      dsimp only
      intro h
      cases h
    | some b =>
      dsimp only
      split <;> (intro h; cases h)

theorem earliestRow_mem {l : List PAttr} {w : PAttr} (h : earliestRow l = some w) :
    w ∈ l := by
  induction l with
  | nil => cases h
  | cons a rest ih =>
    unfold earliestRow at h
    revert h
    cases her : earliestRow rest with
    | none =>
      dsimp only
      intro h
      cases h
      exact List.mem_cons_self _ _
    | some b =>
      dsimp only
      by_cases hlt : b.created_at < a.created_at
      · rw [if_pos hlt]
        intro h
        cases h
        exact List.mem_cons_of_mem _ (ih her)
      · rw [if_neg hlt]
        intro h
        cases h
        exact List.mem_cons_self _ _

theorem earliestRow_min {l : List PAttr} {w : PAttr} (h : earliestRow l = some w) :
    ∀ a ∈ l, w.created_at ≤ a.created_at := by
  induction l generalizing w with
  | nil => cases h
  | cons a rest ih =>
    intro x hx
    unfold earliestRow at h
    revert h
    cases her : earliestRow rest with
    | none =>
      dsimp only
      intro h
      cases h
      rw [earliestRow_eq_none her] at hx
      rcases List.mem_cons.mp hx with rfl | hx'
      · exact le_refl _
      · cases hx'
    | some b =>
      dsimp only
      by_cases hlt : b.created_at < a.created_at
      · rw [if_pos hlt]
        intro h
        cases h
        rcases List.mem_cons.mp hx with rfl | hx'
        · omega
        · exact ih her x hx'
      · rw [if_neg hlt]
        intro h
        cases h
        rcases List.mem_cons.mp hx with rfl | hx'
        · exact le_refl _
        · have := ih her x hx'
          omega

theorem earliestRow_isSome {l : List PAttr} (h : l ≠ []) :
    ∃ w, earliestRow l = some w := by
  cases l with
  | nil => exact absurd rfl h
  | cons a rest =>
    unfold earliestRow
    cases earliestRow rest with
    | none => exact ⟨a, rfl⟩
    | some b =>
      dsimp only
      by_cases hlt : b.created_at < a.created_at
      · exact ⟨b, by rw [if_pos hlt]⟩
      · exact ⟨a, by rw [if_neg hlt]⟩

/-- The bootstrap flips no id. -/
theorem bootstrapKey_ids (attrs : List PAttr) (pid : Nat) (key : String) :
    (bootstrapKey attrs pid key).map (·.id) = attrs.map (·.id) := by
  unfold bootstrapKey
  split
  · rfl
  · split
    · rfl
    · exact map_ids_eq_of fun a _ => by split <;> rfl

/-- Group membership of the winner: it lies in the profile's rows for the
key. -/
theorem rowsFor_mem {attrs : List PAttr} {pid : Nat} {key : String} {w : PAttr}
    (h : w ∈ rowsFor attrs pid key) :
    w ∈ attrs ∧ w.profile_id = pid ∧ w.attribute_key = key := by
  unfold rowsFor at h
  have := List.mem_filter.mp h
  refine ⟨this.1, ?_, ?_⟩
  · have h2 := this.2
    simp only [Bool.and_eq_true, beq_iff_eq] at h2
    exact h2.1
  · have h2 := this.2
    simp only [Bool.and_eq_true, beq_iff_eq] at h2
    exact h2.2

/-- The bootstrap leaves every other `(profile_id, attribute_key)` group's
preferred count unchanged (primary-key uniqueness keeps the flip inside its
own group). -/
theorem bootstrapKey_prefCount_other (attrs : List PAttr) (pid : Nat) (key : String)
    (hn : (attrs.map (·.id)).Nodup) (pid' : Nat) (key' : String)
    (hne : ¬(pid' = pid ∧ key' = key)) :
    prefCount (bootstrapKey attrs pid key) pid' key' = prefCount attrs pid' key' := by
  unfold bootstrapKey
  split
  · rfl
  · split
    · rfl
    next w hw =>
      apply countP_map_eq_of
      intro a ha
      by_cases hcond : (a.profile_id == pid && a.id == w.id) = true
      · rw [if_pos hcond]
        simp only [Bool.and_eq_true, beq_iff_eq] at hcond
        obtain ⟨hwm, hwp, hwk⟩ := rowsFor_mem (earliestRow_mem hw)
        have haw : a = w := eq_of_nodup_ids hn ha hwm hcond.2
        subst haw
        have hfalse : (a.profile_id == pid') = false ∨ (a.attribute_key == key') = false := by
          by_cases hp : pid' = pid
          · refine .inr ?_
            have hk : ¬ key' = key := fun hk => hne ⟨hp, hk⟩
            rw [hwk]
            exact beq_eq_false_iff_ne.mpr fun hkk => hk hkk.symm
          · refine .inl ?_
            rw [hwp]
            exact beq_eq_false_iff_ne.mpr fun hpp => hp hpp.symm
        unfold prefGroup
        rcases hfalse with hf | hf <;> simp [hf]
      · rw [if_neg hcond]

/-- After the bootstrap, a group that lacked a preferred row has at most
one. -/
theorem bootstrapKey_prefCount_self_le (attrs : List PAttr) (pid : Nat) (key : String)
    (hn : (attrs.map (·.id)).Nodup) :
    prefCount (bootstrapKey attrs pid key) pid key ≤ 1 ∨
    prefCount (bootstrapKey attrs pid key) pid key = prefCount attrs pid key := by
  unfold bootstrapKey
  split
  · exact .inr rfl
  next hpref =>
    split
    · exact .inr rfl
    next w hw =>
      left
      have hzero : prefCount attrs pid key = 0 :=
        (hasPreferred_false_iff attrs pid key).mp (by
          revert hpref
          cases hasPreferred attrs pid key <;> simp)
      calc prefCount (attrs.map fun a =>
            if a.profile_id == pid && a.id == w.id then { a with is_preferred := true }
            else a) pid key
          ≤ attrs.countP (fun a => a.id == w.id) := by
            apply countP_map_le_of
            intro a ha hpa
            by_cases hcond : (a.profile_id == pid && a.id == w.id) = true
            · simp only [Bool.and_eq_true] at hcond
              exact hcond.2
            · rw [if_neg hcond] at hpa
              exfalso
              have : prefCount attrs pid key ≠ 0 := by
                unfold prefCount
                intro hz
                rw [countP_eq_zero_iff] at hz
                rw [hz a ha] at hpa
                cases hpa
              exact this hzero
        _ ≤ 1 := countP_id_le_one hn w.id

/-- The bootstrap preserves the preferred-uniqueness invariant. -/
theorem bootstrapKey_AMOP (attrs : List PAttr) (pid : Nat) (key : String)
    (hn : (attrs.map (·.id)).Nodup) (hA : AtMostOnePref attrs) :
    AtMostOnePref (bootstrapKey attrs pid key) := by
  intro pid' key'
  by_cases hg : pid' = pid ∧ key' = key
  · obtain ⟨rfl, rfl⟩ := hg
    rcases bootstrapKey_prefCount_self_le attrs pid' key' hn with h | h
    · exact h
    · rw [h]; exact hA pid' key'
  · rw [bootstrapKey_prefCount_other attrs pid key hn pid' key' hg]
    exact hA pid' key'

theorem bootstrapKey_nodup (attrs : List PAttr) (pid : Nat) (key : String)
    (hn : (attrs.map (·.id)).Nodup) :
    ((bootstrapKey attrs pid key).map (·.id)).Nodup := by
  rw [bootstrapKey_ids]; exact hn

/-- The four-key bootstrap preserves the preferred-uniqueness invariant. -/
theorem bootstrapAll_AMOP (attrs : List PAttr) (pid : Nat)
    (hn : (attrs.map (·.id)).Nodup) (hA : AtMostOnePref attrs) :
    AtMostOnePref (bootstrapAll attrs pid) := by
  unfold bootstrapAll fixedKeys
  simp only [List.foldl_cons, List.foldl_nil]
  have n1 := bootstrapKey_nodup attrs pid "display_name" hn
  have a1 := bootstrapKey_AMOP attrs pid "display_name" hn hA
  have n2 := bootstrapKey_nodup _ pid "primary_email" n1
  have a2 := bootstrapKey_AMOP _ pid "primary_email" n1 a1
  have n3 := bootstrapKey_nodup _ pid "username" n2
  have a3 := bootstrapKey_AMOP _ pid "username" n2 a2
  exact bootstrapKey_AMOP _ pid "avatar_url" n3 a3

/-- The attribute table the sync trigger leaves behind: the upsert chain
followed by the bootstrap, for the profile id the trigger resolved (the
aggregate and user/profile bookkeeping never touch attribute rows). -/
theorem sync_attrs_shape (db : DB) (idRow : Identity) (fp fa now : Nat) :
    ∃ pid, (sync_identity_to_profile db idRow fp fa now).profile_attributes =
      bootstrapAll (upsertChain db.profile_attributes idRow pid fa now) pid := by
  unfold sync_identity_to_profile
  have husers : (ensureUser db idRow.user_id).profile_attributes = db.profile_attributes := by
    unfold ensureUser
    split <;> rfl
  have hseed : (seedProfile (ensureUser db idRow.user_id) idRow fp).profile_attributes =
      db.profile_attributes := by
    unfold seedProfile
    exact husers
  cases ((ensureUser db idRow.user_id).users.find?
      (fun u => u.id == idRow.user_id)).bind (·.profile_id) with
  | none =>
    refine ⟨fp, ?_⟩
    show (syncAttrs _ idRow fp fa now).profile_attributes = _
    unfold syncAttrs syncAggregate
    rw [hseed]
  | some pid =>
    refine ⟨pid, ?_⟩
    show (syncAttrs _ idRow pid fa now).profile_attributes = _
    unfold syncAttrs syncAggregate
    rw [husers]

/-- A sync-trigger run preserves the preferred-uniqueness invariant. -/
theorem sync_AMOP (db : DB) (idRow : Identity) (fp fa now : Nat)
    (hn : (db.profile_attributes.map (·.id)).Nodup)
    (hb : ∀ a ∈ db.profile_attributes, a.id < fa)
    (hA : AtMostOnePref db.profile_attributes) :
    AtMostOnePref (sync_identity_to_profile db idRow fp fa now).profile_attributes := by
  obtain ⟨pid, hshape⟩ := sync_attrs_shape db idRow fp fa now
  rw [hshape]
  apply bootstrapAll_AMOP
  · exact upsertChain_nodup db.profile_attributes idRow pid fa now hn hb
  · intro pid' key'
    rw [upsertChain_prefCount]
    exact hA pid' key'

/-! Facts about the trigger replay inside the destructive merge. -/

/-- A skipped candidate (NULL claim or empty string) leaves the attribute
table exactly as it was. -/
theorem upsertAttrStep_skip (attrs : List PAttr) (pid iid : Nat) (key : String)
    (cand : Option String) (prov : String) (fid now : Nat)
    (hc : cand = none ∨ cand = some "") :
    upsertAttrStep attrs pid iid key cand prov fid now = attrs := by
  rcases hc with rfl | rfl
  · rfl
  · unfold upsertAttrStep
    dsimp only
    rw [if_pos rfl]

/-- The bootstrap never adds or removes rows: the id column is unchanged. -/
theorem bootstrapAll_ids (attrs : List PAttr) (pid : Nat) :
    (bootstrapAll attrs pid).map (·.id) = attrs.map (·.id) := by
  unfold bootstrapAll fixedKeys
  simp only [List.foldl_cons, List.foldl_nil]
  rw [bootstrapKey_ids, bootstrapKey_ids, bootstrapKey_ids, bootstrapKey_ids]

/-- Every attribute id lies strictly below the canonical fresh id. -/
theorem lt_maxAttrId_succ {attrs : List PAttr} {a : PAttr} (ha : a ∈ attrs) :
    a.id < maxAttrId attrs + 1 := by
  induction attrs with
  | nil => cases ha
  | cons x xs ih =>
    unfold maxAttrId
    simp only [List.foldr_cons]
    rcases List.mem_cons.mp ha with rfl | h
    · have := le_max_left a.id (xs.foldr (fun r m => max r.id m) 0)
      omega
    · have h2 := ih h
      unfold maxAttrId at h2
      have := le_max_right x.id (xs.foldr (fun r m => max r.id m) 0)
      omega

/-- One unfolding step of the trigger replay. -/
theorem replayTrigger_cons (db : DB) (i : Identity) (rows : List Identity) (now : Nat) :
    replayTrigger db (i :: rows) now =
      replayTrigger
        (sync_identity_to_profile db i (maxProfileId db.profiles + 1)
          (maxAttrId db.profile_attributes + 1) now) rows now := rfl

/-- A sync run never touches the identity, auth-principal, or
pending-merge tables. -/
theorem sync_frame (db : DB) (idRow : Identity) (fp fa now : Nat) :
    (sync_identity_to_profile db idRow fp fa now).identities = db.identities ∧
    (sync_identity_to_profile db idRow fp fa now).auth_users = db.auth_users ∧
    (sync_identity_to_profile db idRow fp fa now).pending_merges = db.pending_merges := by
  have hens : (ensureUser db idRow.user_id).identities = db.identities ∧
      (ensureUser db idRow.user_id).auth_users = db.auth_users ∧
      (ensureUser db idRow.user_id).pending_merges = db.pending_merges := by
    unfold ensureUser
    split <;> exact ⟨rfl, rfl, rfl⟩
  unfold sync_identity_to_profile
  cases ((ensureUser db idRow.user_id).users.find?
      (fun u => u.id == idRow.user_id)).bind (·.profile_id) with
  | none => exact ⟨hens.1, hens.2.1, hens.2.2⟩
  | some pid => exact ⟨hens.1, hens.2.1, hens.2.2⟩

/-- The trigger replay never touches the identity, auth-principal, or
pending-merge tables. -/
theorem replayTrigger_frame (rows : List Identity) (db : DB) (now : Nat) :
    (replayTrigger db rows now).identities = db.identities ∧
    (replayTrigger db rows now).auth_users = db.auth_users ∧
    (replayTrigger db rows now).pending_merges = db.pending_merges := by
  induction rows generalizing db with
  | nil => exact ⟨rfl, rfl, rfl⟩
  | cons i rest ih =>
    rw [replayTrigger_cons]
    obtain ⟨h1, h2, h3⟩ := ih (sync_identity_to_profile db i (maxProfileId db.profiles + 1)
      (maxAttrId db.profile_attributes + 1) now)
    obtain ⟨s1, s2, s3⟩ := sync_frame db i (maxProfileId db.profiles + 1)
      (maxAttrId db.profile_attributes + 1) now
    exact ⟨h1.trans s1, h2.trans s2, h3.trans s3⟩

/-- A sync run for an account that already has a profile: the users table
is untouched, profiles keep their ids and `merged_user_ids`, and the
attribute table is the upsert chain followed by the bootstrap for that
profile. -/
theorem sync_step_spec (db : DB) (idRow : Identity) (fp fa now : Nat) {u : PubUser}
    {pid : Nat} (hu : db.users.find? (fun x => x.id == idRow.user_id) = some u)
    (hup : u.profile_id = some pid) :
    (sync_identity_to_profile db idRow fp fa now).users = db.users ∧
    (sync_identity_to_profile db idRow fp fa now).profiles.map
      (fun p => (p.id, p.merged_user_ids)) =
      db.profiles.map (fun p => (p.id, p.merged_user_ids)) ∧
    (sync_identity_to_profile db idRow fp fa now).profile_attributes =
      bootstrapAll (upsertChain db.profile_attributes idRow pid fa now) pid := by
  have hens : ensureUser db idRow.user_id = db := by
    unfold ensureUser
    rw [if_pos (List.any_eq_true.mpr
      ⟨u, List.mem_of_find?_eq_some hu, List.find?_some hu⟩)]
  have hbind : ((ensureUser db idRow.user_id).users.find?
      (fun x => x.id == idRow.user_id)).bind (·.profile_id) = some pid := by
    rw [hens, hu]
    simp [hup]
  simp only [sync_identity_to_profile, hbind]
  rw [hens]
  refine ⟨rfl, ?_, rfl⟩
  show ((syncAttrs db idRow pid fa now).profiles.map fun p => (p.id, p.merged_user_ids)) = _
  unfold syncAttrs syncAggregate
  dsimp only
  rw [List.map_map]
  apply List.map_congr_left
  intro p _
  dsimp only [Function.comp]
  split <;> rfl

/-- A sync run keeps the id column `Nodup` when the fresh ids are above
every id in use. -/
theorem sync_ids_nodup (db : DB) (idRow : Identity) (fp fa now : Nat)
    (hn : (db.profile_attributes.map (·.id)).Nodup)
    (hb : ∀ a ∈ db.profile_attributes, a.id < fa) :
    ((sync_identity_to_profile db idRow fp fa now).profile_attributes.map (·.id)).Nodup := by
  obtain ⟨pid, hshape⟩ := sync_attrs_shape db idRow fp fa now
  rw [hshape, bootstrapAll_ids]
  exact upsertChain_nodup db.profile_attributes idRow pid fa now hn hb

/-- The trigger replay preserves the preferred-uniqueness invariant and
the primary key constraint. -/
theorem replay_AMOP_nodup (rows : List Identity) (db : DB) (now : Nat)
    (hA : AtMostOnePref db.profile_attributes)
    (hn : (db.profile_attributes.map (·.id)).Nodup) :
    AtMostOnePref (replayTrigger db rows now).profile_attributes ∧
    ((replayTrigger db rows now).profile_attributes.map (·.id)).Nodup := by
  induction rows generalizing db with
  | nil => exact ⟨hA, hn⟩
  | cons i rest ih =>
    rw [replayTrigger_cons]
    exact ih _
      (sync_AMOP db i _ _ now hn (fun a ha => lt_maxAttrId_succ ha) hA)
      (sync_ids_nodup db i _ _ now hn (fun a ha => lt_maxAttrId_succ ha))

/-- An upsert keeps, for every id, a row with that id and its profile. -/
theorem track_upsert {attrs : List PAttr} {n m : Nat} (pid iid : Nat) (k : String)
    (c : Option String) (pr : String) (f nw : Nat)
    (h : ∃ r ∈ attrs, r.id = n ∧ r.profile_id = m) :
    ∃ r ∈ upsertAttrStep attrs pid iid k c pr f nw, r.id = n ∧ r.profile_id = m := by
  obtain ⟨r, hr, hid, hpf⟩ := h
  cases c with
  | none => exact ⟨r, hr, hid, hpf⟩
  | some v =>
    unfold upsertAttrStep
    dsimp only
    by_cases hv : v = ""
    · rw [if_pos hv]
      exact ⟨r, hr, hid, hpf⟩
    · rw [if_neg hv]
      by_cases hcf : (attrs.any fun a => a.identity_id == some iid && a.attribute_key == k) = true
      · rw [if_pos hcf]
        have hm := List.mem_map_of_mem (fun a =>
          if a.identity_id == some iid && a.attribute_key == k then
            { a with attribute_value := some v, updated_at := nw }
          else a) hr
        dsimp only at hm
        refine ⟨_, hm, ?_, ?_⟩
        · split <;> exact hid
        · split <;> exact hpf
      · rw [if_neg hcf]
        exact ⟨r, List.mem_append_left _ hr, hid, hpf⟩

/-- The bootstrap keeps, for every id, a row with that id and its
profile. -/
theorem track_bootstrapKey {attrs : List PAttr} {n m : Nat} (pid : Nat) (key : String)
    (h : ∃ r ∈ attrs, r.id = n ∧ r.profile_id = m) :
    ∃ r ∈ bootstrapKey attrs pid key, r.id = n ∧ r.profile_id = m := by
  obtain ⟨r, hr, hid, hpf⟩ := h
  unfold bootstrapKey
  split
  · exact ⟨r, hr, hid, hpf⟩
  · split
    · exact ⟨r, hr, hid, hpf⟩
    next w hw =>
      have hm := List.mem_map_of_mem (fun a =>
        if a.profile_id == pid && a.id == w.id then { a with is_preferred := true }
        else a) hr
      dsimp only at hm
      refine ⟨_, hm, ?_, ?_⟩
      · split <;> exact hid
      · split <;> exact hpf

/-- The whole attribute phase of one sync run keeps, for every id, a row
with that id and its profile. -/
theorem track_sync_attrs {attrs : List PAttr} {n m : Nat} (idRow : Identity)
    (pid fa now : Nat) (h : ∃ r ∈ attrs, r.id = n ∧ r.profile_id = m) :
    ∃ r ∈ bootstrapAll (upsertChain attrs idRow pid fa now) pid,
      r.id = n ∧ r.profile_id = m := by
  unfold bootstrapAll fixedKeys upsertChain
  simp only [List.foldl_cons, List.foldl_nil]
  exact track_bootstrapKey _ _ (track_bootstrapKey _ _ (track_bootstrapKey _ _
    (track_bootstrapKey _ _ (track_upsert _ _ _ _ _ _ _ (track_upsert _ _ _ _ _ _ _
      (track_upsert _ _ _ _ _ _ _ (track_upsert _ _ _ _ _ _ _ h)))))))

/-- The trigger replay, with every fired row belonging to an account that
has a profile: users untouched, profile ids and `merged_user_ids`
untouched, and every attribute row's id stays present with its profile. -/
theorem replayTrigger_spec (rows : List Identity) (db : DB) (now target : Nat)
    {u : PubUser} {tpid : Nat}
    (hrows : ∀ i ∈ rows, i.user_id = target)
    (hu : db.users.find? (fun x => x.id == target) = some u)
    (hup : u.profile_id = some tpid) :
    (replayTrigger db rows now).users = db.users ∧
    (replayTrigger db rows now).profiles.map (fun p => (p.id, p.merged_user_ids)) =
      db.profiles.map (fun p => (p.id, p.merged_user_ids)) ∧
    ∀ n m, (∃ r ∈ db.profile_attributes, r.id = n ∧ r.profile_id = m) →
      ∃ r ∈ (replayTrigger db rows now).profile_attributes,
        r.id = n ∧ r.profile_id = m := by
  induction rows generalizing db with
  | nil => exact ⟨rfl, rfl, fun n m h => h⟩
  | cons i rest ih =>
    have hui : db.users.find? (fun x => x.id == i.user_id) = some u := by
      rw [hrows i (List.mem_cons_self i rest)]
      exact hu
    have hstep := sync_step_spec db i (maxProfileId db.profiles + 1)
      (maxAttrId db.profile_attributes + 1) now hui hup
    rw [replayTrigger_cons]
    have hu' : (sync_identity_to_profile db i (maxProfileId db.profiles + 1)
        (maxAttrId db.profile_attributes + 1) now).users.find?
        (fun x => x.id == target) = some u := by
      rw [hstep.1]
      exact hu
    obtain ⟨r1, r2, r3⟩ := ih _ (fun j hj => hrows j (List.mem_cons_of_mem i hj)) hu'
    refine ⟨r1.trans hstep.1, r2.trans hstep.2.1, ?_⟩
    intro n m h
    apply r3
    rw [hstep.2.2]
    exact track_sync_attrs i tpid _ now h

/-! Preservation of "the target profile has no rows for this key" through
the trigger replay. -/

theorem rowsFor_nil_upsert {attrs : List PAttr} {pid : Nat} {key : String}
    (pid2 iid : Nat) (kup : String) (cand : Option String) (prov : String) (f nw : Nat)
    (hcase : kup ≠ key ∨ cand = none ∨ cand = some "")
    (h0 : rowsFor attrs pid key = []) :
    rowsFor (upsertAttrStep attrs pid2 iid kup cand prov f nw) pid key = [] := by
  rcases hcase with hk | hc
  swap
  · rw [upsertAttrStep_skip _ _ _ _ _ _ _ _ hc]
    exact h0
  cases cand with
  | none => exact h0
  | some v =>
    unfold upsertAttrStep
    dsimp only
    by_cases hv : v = ""
    · rw [if_pos hv]
      exact h0
    · rw [if_neg hv]
      unfold rowsFor at h0 ⊢
      rw [List.filter_eq_nil_iff] at h0
      by_cases hcf : (attrs.any fun a => a.identity_id == some iid && a.attribute_key == kup) = true
      · rw [if_pos hcf, List.filter_eq_nil_iff]
        intro a ha
        rcases List.mem_map.mp ha with ⟨s, hs, rfl⟩
        have hns := h0 s hs
        intro hc
        apply hns
        revert hc
        split <;> exact fun hc => hc
      · rw [if_neg hcf, List.filter_eq_nil_iff]
        intro a ha
        rcases List.mem_append.mp ha with h | h
        · exact h0 a h
        · simp only [List.mem_singleton] at h
          subst h
          intro hc
          simp only [Bool.and_eq_true, beq_iff_eq] at hc
          exact hk hc.2

theorem rowsFor_nil_bootstrapKey {attrs : List PAttr} {pid : Nat} {key : String}
    (pid0 : Nat) (key0 : String) (h0 : rowsFor attrs pid key = []) :
    rowsFor (bootstrapKey attrs pid0 key0) pid key = [] := by
  unfold bootstrapKey
  split
  · exact h0
  · split
    · exact h0
    · unfold rowsFor at h0 ⊢
      rw [List.filter_eq_nil_iff] at h0 ⊢
      intro a ha
      rcases List.mem_map.mp ha with ⟨s, hs, rfl⟩
      have hns := h0 s hs
      intro hc
      apply hns
      revert hc
      split <;> exact fun hc => hc

theorem rowsFor_nil_bootstrapAll {attrs : List PAttr} {pid : Nat} {key : String}
    (pid0 : Nat) (h0 : rowsFor attrs pid key = []) :
    rowsFor (bootstrapAll attrs pid0) pid key = [] := by
  unfold bootstrapAll fixedKeys
  simp only [List.foldl_cons, List.foldl_nil]
  exact rowsFor_nil_bootstrapKey _ _ (rowsFor_nil_bootstrapKey _ _
    (rowsFor_nil_bootstrapKey _ _ (rowsFor_nil_bootstrapKey _ _ h0)))

theorem rowsFor_nil_upsertChain {attrs : List PAttr} {pid : Nat} {key : String}
    (idRow : Identity) (pid0 fa now : Nat)
    (hcand : candidateFor idRow.identity_data key = none ∨
      candidateFor idRow.identity_data key = some "")
    (h0 : rowsFor attrs pid key = []) :
    rowsFor (upsertChain attrs idRow pid0 fa now) pid key = [] := by
  have c1 : "display_name" ≠ key ∨ (extractDisplayName idRow.identity_data = none ∨
      extractDisplayName idRow.identity_data = some "") := by
    by_cases hk : "display_name" = key
    · subst hk
      exact .inr hcand
    · exact .inl hk
  have c2 : "primary_email" ≠ key ∨ (extractEmail idRow.identity_data = none ∨
      extractEmail idRow.identity_data = some "") := by
    by_cases hk : "primary_email" = key
    · subst hk
      exact .inr hcand
    · exact .inl hk
  have c3 : "username" ≠ key ∨ (extractUsername idRow.identity_data = none ∨
      extractUsername idRow.identity_data = some "") := by
    by_cases hk : "username" = key
    · subst hk
      exact .inr hcand
    · exact .inl hk
  have c4 : "avatar_url" ≠ key ∨ (extractAvatar idRow.identity_data = none ∨
      extractAvatar idRow.identity_data = some "") := by
    by_cases hk : "avatar_url" = key
    · subst hk
      exact .inr hcand
    · exact .inl hk
  unfold upsertChain
  exact rowsFor_nil_upsert _ _ _ _ _ _ _ c4 (rowsFor_nil_upsert _ _ _ _ _ _ _ c3
    (rowsFor_nil_upsert _ _ _ _ _ _ _ c2 (rowsFor_nil_upsert _ _ _ _ _ _ _ c1 h0)))

/-- The trigger replay inserts no row for a key whose candidates are all
absent: a key with no rows under the target profile before still has none
afterwards. -/
theorem replay_keyzero (rows : List Identity) (db : DB) (now target : Nat)
    {u : PubUser} {tpid : Nat} {key : String}
    (hrows : ∀ i ∈ rows, i.user_id = target)
    (hu : db.users.find? (fun x => x.id == target) = some u)
    (hup : u.profile_id = some tpid)
    (hcand : ∀ i ∈ rows, candidateFor i.identity_data key = none ∨
      candidateFor i.identity_data key = some "")
    (h0 : rowsFor db.profile_attributes tpid key = []) :
    rowsFor (replayTrigger db rows now).profile_attributes tpid key = [] := by
  induction rows generalizing db with
  | nil => exact h0
  | cons i rest ih =>
    have hui : db.users.find? (fun x => x.id == i.user_id) = some u := by
      rw [hrows i (List.mem_cons_self i rest)]
      exact hu
    have hstep := sync_step_spec db i (maxProfileId db.profiles + 1)
      (maxAttrId db.profile_attributes + 1) now hui hup
    rw [replayTrigger_cons]
    apply ih _ (fun j hj => hrows j (List.mem_cons_of_mem i hj))
      (by rw [hstep.1]; exact hu)
      (fun j hj => hcand j (List.mem_cons_of_mem i hj))
    rw [hstep.2.2]
    exact rowsFor_nil_bootstrapAll _ (rowsFor_nil_upsertChain i tpid _ now
      (hcand i (List.mem_cons_self i rest)) h0)

/-! The replay never moves a row off its profile and only inserts rows
under the synced profile, so the source-profile row count the merge
reports is unaffected by it. -/

theorem countP_length_filter {α : Type} (l : List α) (p : α → Bool) :
    l.countP p = (l.filter p).length := by
  induction l with
  | nil => rfl
  | cons x xs ih =>
    simp only [List.countP_cons, List.filter_cons]
    by_cases h : p x = true
    · simp [h, ih]
    · simp [h, ih]

theorem countP_profile_upsert (attrs : List PAttr) (pid iid : Nat) (k : String)
    (c : Option String) (pr : String) (f nw q : Nat) (hq : pid ≠ q) :
    (upsertAttrStep attrs pid iid k c pr f nw).countP (fun a => a.profile_id == q) =
      attrs.countP (fun a => a.profile_id == q) := by
  cases c with
  | none => rfl
  | some v =>
    unfold upsertAttrStep
    dsimp only
    by_cases hv : v = ""
    · rw [if_pos hv]
    · rw [if_neg hv]
      by_cases hcf : (attrs.any fun a => a.identity_id == some iid && a.attribute_key == k) = true
      · rw [if_pos hcf]
        apply countP_map_eq_of
        intro a _
        split <;> rfl
      · rw [if_neg hcf, List.countP_append, List.countP_cons, List.countP_nil]
        simp [hq]

theorem countP_profile_bootstrapKey (attrs : List PAttr) (pid : Nat) (key : String)
    (q : Nat) :
    (bootstrapKey attrs pid key).countP (fun a => a.profile_id == q) =
      attrs.countP (fun a => a.profile_id == q) := by
  unfold bootstrapKey
  split
  · rfl
  · split
    · rfl
    · apply countP_map_eq_of
      intro a _
      split <;> rfl

/-- One sync run for an account whose profile is `pid` does not change how
many attribute rows sit under any other profile `q`. -/
theorem countP_profile_sync (db : DB) (idRow : Identity) (fp fa now q : Nat)
    {u : PubUser} {pid : Nat}
    (hu : db.users.find? (fun x => x.id == idRow.user_id) = some u)
    (hup : u.profile_id = some pid) (hq : pid ≠ q) :
    (sync_identity_to_profile db idRow fp fa now).profile_attributes.countP
      (fun a => a.profile_id == q) =
      db.profile_attributes.countP (fun a => a.profile_id == q) := by
  rw [(sync_step_spec db idRow fp fa now hu hup).2.2]
  unfold bootstrapAll fixedKeys upsertChain
  simp only [List.foldl_cons, List.foldl_nil]
  rw [countP_profile_bootstrapKey, countP_profile_bootstrapKey,
    countP_profile_bootstrapKey, countP_profile_bootstrapKey,
    countP_profile_upsert _ _ _ _ _ _ _ _ _ hq, countP_profile_upsert _ _ _ _ _ _ _ _ _ hq,
    countP_profile_upsert _ _ _ _ _ _ _ _ _ hq, countP_profile_upsert _ _ _ _ _ _ _ _ _ hq]

/-- The trigger replay does not change how many attribute rows sit under
any profile other than the target's. -/
theorem countP_profile_replay (rows : List Identity) (db : DB) (now target q : Nat)
    {u : PubUser} {tpid : Nat}
    (hrows : ∀ i ∈ rows, i.user_id = target)
    (hu : db.users.find? (fun x => x.id == target) = some u)
    (hup : u.profile_id = some tpid) (hq : tpid ≠ q) :
    (replayTrigger db rows now).profile_attributes.countP (fun a => a.profile_id == q) =
      db.profile_attributes.countP (fun a => a.profile_id == q) := by
  induction rows generalizing db with
  | nil => rfl
  | cons i rest ih =>
    have hui : db.users.find? (fun x => x.id == i.user_id) = some u := by
      rw [hrows i (List.mem_cons_self i rest)]
      exact hu
    rw [replayTrigger_cons]
    rw [ih _ (fun j hj => hrows j (List.mem_cons_of_mem i hj))
      (by rw [(sync_step_spec db i _ _ now hui hup).1]; exact hu)]
    exact countP_profile_sync db i _ _ now q hui hup hq

/-- After the attribute move and the source-profile cascade, a key with no
rows under the target profile has zero preferred rows there: the moved
rows all arrive with `is_preferred = FALSE`. -/
theorem move_filter_prefCount_zero (l : List PAttr) (spid tpid now : Nat) (key : String)
    (h0 : rowsFor l tpid key = []) :
    prefCount ((l.map fun a =>
        if a.profile_id == spid then
          { a with profile_id := tpid, is_preferred := false, updated_at := now }
        else a).filter fun a => !(a.profile_id == spid)) tpid key = 0 := by
  unfold prefCount
  rw [countP_eq_zero_iff]
  intro a ha
  have ha1 := (List.mem_filter.mp ha).1
  rcases List.mem_map.mp ha1 with ⟨s, hs, rfl⟩
  unfold rowsFor at h0
  rw [List.filter_eq_nil_iff] at h0
  by_cases hc : (s.profile_id == spid) = true
  · rw [if_pos hc]
    simp [prefGroup]
  · rw [if_neg hc]
    rw [Bool.eq_false_iff]
    intro hg
    unfold prefGroup at hg
    simp only [Bool.and_eq_true] at hg
    exact h0 s hs (by rw [Bool.and_eq_true]; exact ⟨hg.1.1, hg.1.2⟩)

/-- A group predicate ignores the fields an upsert's conflict branch or a
preference flip leaves alone; spelled pointwise for the two UPDATE shapes
of `set_preferred_attribute`. -/
theorem prefGroup_false_of_not_group {pid : Nat} {key : String} {r : PAttr}
    (h : ¬(r.profile_id = pid ∧ r.attribute_key = key)) :
    prefGroup pid key r = false := by
  unfold prefGroup
  by_cases hp : (r.profile_id == pid) = true
  · have hk : (r.attribute_key == key) = false := by
      rw [beq_eq_false_iff_ne]
      intro hk
      exact h ⟨beq_iff_eq.mp hp, hk⟩
    simp [hk]
  · simp only [Bool.not_eq_true] at hp
    simp [hp]

/-- The two preference UPDATE maps fix every id. -/
theorem unsetGroup_ids (l : List PAttr) (pid : Nat) (key : String) :
    (unsetGroup l pid key).map (·.id) = l.map (·.id) :=
  map_ids_eq_of fun r _ => by split <;> rfl

theorem setRow_ids (l : List PAttr) (attr_id : Nat) :
    (setRow l attr_id).map (·.id) = l.map (·.id) :=
  map_ids_eq_of fun r _ => by split <;> rfl

/-- After the first UPDATE no row of the target group is preferred. -/
theorem unsetGroup_zero (l : List PAttr) (pid : Nat) (key : String) :
    ∀ r ∈ unsetGroup l pid key, prefGroup pid key r = false := by
  intro r hr
  unfold unsetGroup at hr
  rcases List.mem_map.mp hr with ⟨s, _, rfl⟩
  by_cases hc : (s.profile_id == pid && s.attribute_key == key) = true
  · rw [if_pos hc]
    unfold prefGroup
    simp
  · rw [if_neg hc]
    apply prefGroup_false_of_not_group
    intro ⟨h1, h2⟩
    exact hc (by simp [h1, h2])

/-- The first UPDATE leaves every other group's preferred count alone. -/
theorem unsetGroup_countP_other (l : List PAttr) (pid : Nat) (key : String)
    (pid' : Nat) (key' : String) (hne : ¬(pid' = pid ∧ key' = key)) :
    prefCount (unsetGroup l pid key) pid' key' = prefCount l pid' key' := by
  unfold unsetGroup
  apply countP_map_eq_of
  intro s _
  by_cases hc : (s.profile_id == pid && s.attribute_key == key) = true
  · simp only [Bool.and_eq_true, beq_iff_eq] at hc
    have hgrp : ¬(s.profile_id = pid' ∧ s.attribute_key = key') := by
      intro ⟨h1, h2⟩
      exact hne ⟨by rw [← h1, hc.1], by rw [← h2, hc.2]⟩
    rw [if_pos (by simp [hc.1, hc.2])]
    rw [prefGroup_false_of_not_group (r := { s with is_preferred := false })
      (by simpa using hgrp)]
    rw [prefGroup_false_of_not_group hgrp]
  · rw [if_neg hc]

/-- Post-state of a successful `set_preferred_attribute` call: exactly one
preferred row in the target's group and it is the target; every other
group's preferred count, every row outside the group, and every non-profile
table are untouched; the profile aggregate receives the value for the
`display_name` / `primary_email` keys only. -/
theorem set_preferred_post (db : DB) (caller attr_id : Nat) {a : PAttr} {db' : DB}
    (hfind : db.profile_attributes.find? (fun r => r.id == attr_id) = some a)
    (hn : (db.profile_attributes.map (·.id)).Nodup)
    (hok : set_preferred_attribute db caller attr_id = .ok db') :
    prefCount db'.profile_attributes a.profile_id a.attribute_key = 1 ∧
    (∀ r ∈ db'.profile_attributes,
      prefGroup a.profile_id a.attribute_key r = true → r.id = attr_id) ∧
    (∀ pid' key', ¬(pid' = a.profile_id ∧ key' = a.attribute_key) →
      prefCount db'.profile_attributes pid' key' =
        prefCount db.profile_attributes pid' key') ∧
    (∀ r ∈ db.profile_attributes,
      ¬(r.profile_id = a.profile_id ∧ r.attribute_key = a.attribute_key) →
      r ∈ db'.profile_attributes) ∧
    db'.profiles = (db.profiles.map fun p =>
      if p.id == a.profile_id then
        { p with
          display_name :=
            if a.attribute_key == "display_name" then a.attribute_value else p.display_name,
          primary_email :=
            if a.attribute_key == "primary_email" then a.attribute_value else p.primary_email }
      else p) ∧
    db'.users = db.users ∧ db'.identities = db.identities ∧
    db'.auth_users = db.auth_users ∧ db'.pending_merges = db.pending_merges := by
  have ha_mem : a ∈ db.profile_attributes := List.mem_of_find?_eq_some hfind
  have ha_id : a.id = attr_id := by simpa using List.find?_some hfind
  simp only [set_preferred_attribute, hfind] at hok
  by_cases hauth :
      (db.users.any fun u => u.id == caller && u.profile_id == some a.profile_id) = true
  swap
  · rw [if_neg (by simpa using hauth)] at hok
    cases hok
  rw [if_pos hauth] at hok
  cases hok
  unfold applyPreference
  dsimp only
  have hids1 : (unsetGroup db.profile_attributes a.profile_id a.attribute_key).map (·.id) =
      db.profile_attributes.map (·.id) := unsetGroup_ids _ _ _
  have hn1 : ((unsetGroup db.profile_attributes a.profile_id a.attribute_key).map
      (·.id)).Nodup := by rw [hids1]; exact hn
  have hids2 : (setRow (unsetGroup db.profile_attributes a.profile_id a.attribute_key)
      attr_id).map (·.id) =
      (unsetGroup db.profile_attributes a.profile_id a.attribute_key).map (·.id) :=
    setRow_ids _ _
  have hn2 : ((setRow (unsetGroup db.profile_attributes a.profile_id a.attribute_key)
      attr_id).map (·.id)).Nodup := by rw [hids2]; exact hn1
  have hzero1 := unsetGroup_zero db.profile_attributes a.profile_id a.attribute_key
  have hmem1 : ({ a with is_preferred := false } : PAttr) ∈
      unsetGroup db.profile_attributes a.profile_id a.attribute_key := by
    unfold unsetGroup
    have := List.mem_map_of_mem (fun r =>
      if r.profile_id == a.profile_id && r.attribute_key == a.attribute_key then
        { r with is_preferred := false }
      else r) ha_mem
    dsimp only at this
    rwa [if_pos (by simp)] at this
  have huniq1 : ∀ r ∈ unsetGroup db.profile_attributes a.profile_id a.attribute_key,
      r.id = attr_id → r = { a with is_preferred := false } := by
    intro r hr hrid
    exact eq_of_nodup_ids hn1 hr hmem1 (hrid.trans ha_id.symm)
  have hmem2 : ({ a with is_preferred := true } : PAttr) ∈
      setRow (unsetGroup db.profile_attributes a.profile_id a.attribute_key) attr_id := by
    unfold setRow
    have := List.mem_map_of_mem (fun r =>
      if r.id == attr_id then { r with is_preferred := true } else r) hmem1
    dsimp only at this
    rwa [if_pos (by simp [ha_id])] at this
  refine ⟨?_, ?_, ?_, ?_, ?_, rfl, rfl, rfl, rfl⟩
  · -- conjunct 1: exactly one preferred row in the group afterwards
    apply Nat.le_antisymm
    · calc prefCount (setRow (unsetGroup db.profile_attributes a.profile_id a.attribute_key)
            attr_id) a.profile_id a.attribute_key
          ≤ (unsetGroup db.profile_attributes a.profile_id a.attribute_key).countP
              (fun r => r.id == attr_id) := by
            unfold setRow
            apply countP_map_le_of
            intro r hr hpr
            by_cases hc : (r.id == attr_id) = true
            · exact hc
            · rw [if_neg hc, hzero1 r hr] at hpr
              cases hpr
        _ ≤ 1 := countP_id_le_one hn1 attr_id
    · apply one_le_countP_of_mem hmem2
      unfold prefGroup
      simp
  · -- conjunct 2: any preferred row of the group is the target
    intro r hr hpr
    unfold setRow at hr
    rcases List.mem_map.mp hr with ⟨s, hs, rfl⟩
    by_cases hc : (s.id == attr_id) = true
    · rw [if_pos hc]
      exact beq_iff_eq.mp hc
    · rw [if_neg hc] at hpr ⊢
      rw [hzero1 s hs] at hpr
      cases hpr
  · -- conjunct 3: other groups are untouched
    intro pid' key' hne
    have step2eq : prefCount (setRow (unsetGroup db.profile_attributes a.profile_id
        a.attribute_key) attr_id) pid' key' =
        prefCount (unsetGroup db.profile_attributes a.profile_id a.attribute_key)
          pid' key' := by
      unfold setRow
      apply countP_map_eq_of
      intro r hr
      by_cases hc : (r.id == attr_id) = true
      · have hra := huniq1 r hr (beq_iff_eq.mp hc)
        have hgrp : ¬(r.profile_id = pid' ∧ r.attribute_key = key') := by
          intro ⟨h1, h2⟩
          rw [hra] at h1 h2
          exact hne ⟨h1.symm, h2.symm⟩
        rw [if_pos hc]
        rw [prefGroup_false_of_not_group (r := { r with is_preferred := true })
          (by simpa using hgrp)]
        rw [prefGroup_false_of_not_group hgrp]
      · rw [if_neg hc]
    rw [step2eq]
    exact unsetGroup_countP_other db.profile_attributes a.profile_id a.attribute_key
      pid' key' (by
        intro ⟨h1, h2⟩
        exact hne ⟨h1, h2⟩)
  · -- conjunct 4: rows outside the group pass through unchanged
    intro r hr hgrp
    have h2 : r ∈ unsetGroup db.profile_attributes a.profile_id a.attribute_key := by
      unfold unsetGroup
      have := List.mem_map_of_mem (fun s =>
        if s.profile_id == a.profile_id && s.attribute_key == a.attribute_key then
          { s with is_preferred := false }
        else s) hr
      dsimp only at this
      rwa [if_neg (by
        intro hc
        simp only [Bool.and_eq_true, beq_iff_eq] at hc
        exact hgrp hc)] at this
    unfold setRow
    have := List.mem_map_of_mem (fun s =>
      if s.id == attr_id then { s with is_preferred := true } else s) h2
    dsimp only at this
    rwa [if_neg (by
      intro hc
      have hra : r = a := eq_of_nodup_ids hn hr ha_mem ((beq_iff_eq.mp hc).trans ha_id.symm)
      exact hgrp (by rw [hra]; exact ⟨rfl, rfl⟩))] at this
  · -- conjunct 5: the aggregate write-through
    have hval : (((setRow (unsetGroup db.profile_attributes a.profile_id a.attribute_key)
        attr_id).find? fun r => r.id == attr_id)).bind (·.attribute_value) =
        a.attribute_value := by
      cases hfq : (setRow (unsetGroup db.profile_attributes a.profile_id a.attribute_key)
          attr_id).find? (fun r => r.id == attr_id) with
      | none =>
        exfalso
        exact List.find?_eq_none.mp hfq _ hmem2 (by simp [ha_id])
      | some r =>
        have hr_mem := List.mem_of_find?_eq_some hfq
        have hr_id : r.id = attr_id := by simpa using List.find?_some hfq
        have hreq : r = { a with is_preferred := true } :=
          eq_of_nodup_ids hn2 hr_mem hmem2 (hr_id.trans ha_id.symm)
        rw [hreq]
        rfl
    rw [hval]

/-- A successful preference change preserves the preferred-uniqueness
invariant. -/
theorem set_preferred_AMOP (db : DB) (caller attr_id : Nat)
    (hn : (db.profile_attributes.map (·.id)).Nodup)
    (hA : AtMostOnePref db.profile_attributes) :
    ∀ db', set_preferred_attribute db caller attr_id = .ok db' →
      AtMostOnePref db'.profile_attributes := by
  intro db' hok
  cases hfind : db.profile_attributes.find? (fun r => r.id == attr_id) with
  | none =>
    exfalso
    simp only [set_preferred_attribute, hfind] at hok
    cases hok
  | some a =>
    obtain ⟨h1, _, h3, _, _, _, _, _, _⟩ := set_preferred_post db caller attr_id hfind hn hok
    intro pid' key'
    by_cases hg : pid' = a.profile_id ∧ key' = a.attribute_key
    · obtain ⟨rfl, rfl⟩ := hg
      omega
    · rw [h3 pid' key' hg]
      exact hA pid' key'

/-- Moving a profile's attributes during a merge lowers no group's
preferred count past one: moved rows arrive with `is_preferred = FALSE`. -/
theorem moveAttrs_countP_le (l : List PAttr) (spid tpid now : Nat)
    (pid' : Nat) (key' : String) :
    ((l.map fun a =>
        if a.profile_id == spid then
          { a with profile_id := tpid, is_preferred := false, updated_at := now }
        else a).countP (prefGroup pid' key')) ≤ l.countP (prefGroup pid' key') := by
  apply countP_map_le_of
  intro a _ hp
  by_cases hc : (a.profile_id == spid) = true
  · rw [if_pos hc] at hp
    unfold prefGroup at hp
    simp at hp
  · rwa [if_neg hc] at hp

/-- The destructive merge preserves the preferred-uniqueness invariant:
the trigger replay keeps it (each sync run keeps it), and the attribute
move then flips every moved row to non-preferred. -/
theorem merge_internal_AMOP (db : DB) (target source now : Nat)
    (hn : (db.profile_attributes.map (·.id)).Nodup)
    (hA : AtMostOnePref db.profile_attributes) :
    AtMostOnePref (merge_profiles_internal db target source now).2.profile_attributes := by
  unfold merge_profiles_internal
  split
  · exact hA
  · split
    · exact hA
    · split
      · exact hA
      · split
        · exact hA
        · dsimp only
          have hrep := replay_AMOP_nodup
            ((db.identities.filter (fun i => i.user_id == source)).map
              (fun i => { i with user_id := target }))
            { db with identities := db.identities.map fun i =>
                if i.user_id == source then { i with user_id := target } else i }
            now hA hn
          intro pid' key'
          unfold prefCount
          refine le_trans (countP_filter_le _ _ _)
            (le_trans (moveAttrs_countP_le _ _ _ _ _ _) (hrep.1 pid' key'))

/-- The legacy profile-level merge preserves the preferred-uniqueness
invariant. -/
theorem merge_profiles_AMOP (db : DB) (target source now : Nat)
    (hA : AtMostOnePref db.profile_attributes) :
    AtMostOnePref (merge_profiles db target source now).2.profile_attributes := by
  unfold merge_profiles
  split
  · exact hA
  · split
    · exact hA
    · split
      · exact hA
      · dsimp only
        intro pid' key'
        unfold prefCount
        calc ((db.profile_attributes.map _).filter _).countP (prefGroup pid' key')
            ≤ (db.profile_attributes.map _).countP (prefGroup pid' key') :=
              countP_filter_le _ _ _
          _ ≤ db.profile_attributes.countP (prefGroup pid' key') :=
              moveAttrs_countP_le _ _ _ _ _ _
          _ ≤ 1 := hA pid' key'

/-- Merging only ever deletes pending merge requests (the requester-cascade
of the auth-user delete), never inserts or rewrites one. -/
theorem merge_internal_pending_subset (db : DB) (t s n : Nat) :
    ∀ r ∈ (merge_profiles_internal db t s n).2.pending_merges, r ∈ db.pending_merges := by
  unfold merge_profiles_internal
  split
  · exact fun r hr => hr
  · split
    · exact fun r hr => hr
    · split
      · exact fun r hr => hr
      · split
        · exact fun r hr => hr
        · dsimp only
          intro r hr
          have h1 := (List.mem_filter.mp hr).1
          rw [(replayTrigger_frame _ _ _).2.2] at h1
          exact h1

/-- When no pending request carries the token, `execute_merge_with_token`
returns NotFound and leaves the state untouched. -/
theorem exec_notfound_of_no_token (db : DB) (caller token now : Nat)
    (h : ∀ r ∈ db.pending_merges, r.token ≠ token) :
    execute_merge_with_token db caller token now = (.NotFound, db) := by
  have hnone : findLiveRequest db token now = none := by
    unfold findLiveRequest
    refine List.find?_eq_none.mpr fun r hr => ?_
    simp [h r hr]
  unfold execute_merge_with_token
  rw [hnone]

/-- Rows of a table with `Nodup` projections are determined by the
projection. -/
theorem eq_of_nodup_map {α β : Type} {f : α → β} {l : List α} (h : (l.map f).Nodup)
    {a b : α} (ha : a ∈ l) (hb : b ∈ l) (hf : f a = f b) : a = b := by
  induction l with
  | nil => cases ha
  | cons x xs ih =>
    simp only [List.map_cons, List.nodup_cons] at h
    rcases List.mem_cons.mp ha with rfl | ha' <;> rcases List.mem_cons.mp hb with rfl | hb'
    · rfl
    · exact absurd (hf ▸ List.mem_map_of_mem f hb') h.1
    · exact absurd (hf ▸ List.mem_map_of_mem f ha') h.1
    · exact ih h.2 ha' hb'

/-- A map whose changes keep `attrData` on the filtered key leaves the
key's identity-supplied data unchanged. -/
theorem keyData_map_eq {l : List PAttr} {f : PAttr → PAttr} (k : String)
    (h : ∀ a ∈ l, (f a).attribute_key = a.attribute_key ∧
      (a.attribute_key = k → attrData (f a) = attrData a)) :
    keyData (l.map f) k = keyData l k := by
  induction l with
  | nil => rfl
  | cons x xs ih =>
    have hx := h x (List.mem_cons_self x xs)
    have ihx := ih fun a ha => h a (List.mem_cons_of_mem x ha)
    unfold keyData at ihx ⊢
    simp only [List.map_cons]
    by_cases hxk : (x.attribute_key == k) = true
    · simp only [List.filter_cons, hx.1, hxk, if_true]
      simp only [List.map_cons]
      rw [hx.2 (beq_iff_eq.mp hxk), ihx]
    · rw [Bool.not_eq_true] at hxk
      simp only [List.filter_cons, hx.1, hxk, if_false]
      exact ihx

/-- The bootstrap changes only preference flags, never a key's data. -/
theorem keyData_bootstrapKey (attrs : List PAttr) (pid : Nat) (key k : String) :
    keyData (bootstrapKey attrs pid key) k = keyData attrs k := by
  unfold bootstrapKey
  split
  · rfl
  · split
    · rfl
    · exact keyData_map_eq k fun a _ => by
        constructor
        · split <;> rfl
        · intro _
          split <;> rfl

theorem keyData_bootstrapAll (attrs : List PAttr) (pid : Nat) (k : String) :
    keyData (bootstrapAll attrs pid) k = keyData attrs k := by
  unfold bootstrapAll fixedKeys
  simp only [List.foldl_cons, List.foldl_nil]
  rw [keyData_bootstrapKey, keyData_bootstrapKey, keyData_bootstrapKey, keyData_bootstrapKey]

/-- An upsert for a different attribute key leaves this key's data
unchanged. -/
theorem keyData_upsert_other (attrs : List PAttr) (pid iid : Nat) (kup : String)
    (cand : Option String) (prov : String) (fid now : Nat) (k : String) (hne : kup ≠ k) :
    keyData (upsertAttrStep attrs pid iid kup cand prov fid now) k = keyData attrs k := by
  cases cand with
  | none => rfl
  | some v =>
    unfold upsertAttrStep
    dsimp only
    by_cases hv : v = ""
    · rw [if_pos hv]
    · rw [if_neg hv]
      by_cases hcf : (attrs.any fun a => a.identity_id == some iid && a.attribute_key == kup) = true
      · rw [if_pos hcf]
        apply keyData_map_eq
        intro a _
        constructor
        · split <;> rfl
        · intro hak
          by_cases hcond : (a.identity_id == some iid && a.attribute_key == kup) = true
          · exfalso
            simp only [Bool.and_eq_true, beq_iff_eq] at hcond
            exact hne (hcond.2 ▸ hak)
          · rw [if_neg hcond]
      · rw [if_neg hcf]
        unfold keyData
        rw [List.filter_append]
        have hnil : List.filter (fun a => a.attribute_key == k)
            [({ id := fid, profile_id := pid, identity_id := some iid, attribute_key := kup,
                attribute_value := some v, source_provider := some prov, is_preferred := false,
                created_at := now, updated_at := now } : PAttr)] = [] := by
          simp [hne]
        rw [hnil, List.append_nil]

/-- A group with no preferred row has no preferred member at all. -/
theorem hasPreferred_false_all {attrs : List PAttr} {pid : Nat} {key : String}
    (h : hasPreferred attrs pid key = false) :
    ∀ a ∈ attrs, prefGroup pid key a = false := by
  have := (hasPreferred_false_iff attrs pid key).mp h
  unfold prefCount at this
  exact (countP_eq_zero_iff _ _).mp this

/-! Claim theorems. -/

/-- Claim C2: for every profile and attribute key, at most one
ProfileAttribute row with that `(profile_id, attribute_key)` has
`is_preferred = true`, and the invariant is preserved by every
Consolidation Engine run (`sync_identity_to_profile`), every preference
change (`set_preferred_attribute`), and every merge
(`merge_profiles_internal` and `merge_profiles`).  Fresh-id and primary-key
hypotheses mirror `gen_random_uuid()` and the tables' PRIMARY KEY
constraint. -/
theorem claim_C2_preferred_unique_invariant
    (db : DB) (idRow : Identity) (freshProfile freshAttr now : Nat)
    (caller attr_id target source : Nat)
    (hn : (db.profile_attributes.map (·.id)).Nodup)
    (hfresh : ∀ a ∈ db.profile_attributes, a.id < freshAttr)
    (hA : AtMostOnePref db.profile_attributes) :
    AtMostOnePref
      (sync_identity_to_profile db idRow freshProfile freshAttr now).profile_attributes ∧
    (∀ db', set_preferred_attribute db caller attr_id = .ok db' →
      AtMostOnePref db'.profile_attributes) ∧
    AtMostOnePref (merge_profiles_internal db target source now).2.profile_attributes ∧
    AtMostOnePref (merge_profiles db target source now).2.profile_attributes :=
  ⟨sync_AMOP db idRow freshProfile freshAttr now hn hfresh hA,
   set_preferred_AMOP db caller attr_id hn hA,
   merge_internal_AMOP db target source now hn hA,
   merge_profiles_AMOP db target source now hA⟩

/-- Concrete two-account state used by witnesses: account 1 with profile 10
owning one preferred display-name row, account 2 with profile 20. -/
def dbC2 : DB :=
  { auth_users := [1, 2],
    users := [{ id := 1, profile_id := some 10 }, { id := 2, profile_id := some 20 }],
    profiles := [{ id := 10, display_name := some "Ann", primary_email := none,
                   merged_user_ids := [] },
                 { id := 20, display_name := none, primary_email := none,
                   merged_user_ids := [] }],
    profile_attributes :=
      [{ id := 1, profile_id := 10, identity_id := some 7, attribute_key := "display_name",
         attribute_value := some "Ann", source_provider := some "google",
         is_preferred := true, created_at := 3, updated_at := 3 }],
    identities := [{ id := 7, user_id := 1, provider := "google", provider_id := "g1",
                     identity_data := [("email", "a@x.com"), ("name", "Ann")] }],
    pending_merges := [] }

/-- The identity event used by witnesses. -/
def idC2 : Identity :=
  { id := 7, user_id := 1, provider := "google", provider_id := "g1",
    identity_data := [("email", "a@x.com"), ("name", "Ann")] }

/-- Witness for C2 at a concrete state with every hypothesis discharged. -/
theorem claim_C2_witness :
    AtMostOnePref
      (sync_identity_to_profile dbC2 idC2 99 100 7).profile_attributes ∧
    (∀ db', set_preferred_attribute dbC2 3 1 = .ok db' →
      AtMostOnePref db'.profile_attributes) ∧
    AtMostOnePref (merge_profiles_internal dbC2 1 2 50).2.profile_attributes ∧
    AtMostOnePref (merge_profiles dbC2 1 2 50).2.profile_attributes :=
  claim_C2_preferred_unique_invariant dbC2 idC2 99 100 7 3 1 1 2
    (by decide) (by decide) (fun pid key => List.countP_le_length _)

/-- Claim C10: `get_merge_requester_info` performs no writes — its result
state is the input state in every branch (NotFound, same-user, and info
return), so the looked-up token is not consumed: a later
`execute_merge_with_token` or `cancel_merge_request` behaves exactly as it
would have without the lookup. -/
theorem claim_C10_info_lookup_readonly (db : DB) (caller token now caller2 now2 : Nat) :
    (get_merge_requester_info db caller token now).2 = db ∧
    execute_merge_with_token (get_merge_requester_info db caller token now).2
      caller2 token now2 = execute_merge_with_token db caller2 token now2 ∧
    cancel_merge_request (get_merge_requester_info db caller token now).2 token =
      cancel_merge_request db token := by
  have h : (get_merge_requester_info db caller token now).2 = db := by
    unfold get_merge_requester_info
    split
    · rfl
    · split
      · rfl
      · split
        · rfl
        · split <;> rfl
  exact ⟨h, by rw [h], by rw [h]⟩

/-- Claim C9 (amended): an `attribute_id` matching no ProfileAttribute row
makes `set_preferred_attribute` fail with Unauthorized — the NULL profile
lookup fails the ownership check — not with the NotFound class the spec's
taxonomy assigns to absent resources. -/
theorem claim_C9_absent_attribute_unauthorized (db : DB) (caller attr_id : Nat)
    (hmiss : db.profile_attributes.find? (fun r => r.id == attr_id) = none) :
    set_preferred_attribute db caller attr_id = .error .Unauthorized := by
  simp only [set_preferred_attribute, hmiss]

/-- One-account state with no attribute rows and one pending merge request
(requester 1, token 42, expires at 100). -/
def dbTok : DB :=
  { auth_users := [1],
    users := [{ id := 1, profile_id := some 10 }],
    profiles := [{ id := 10, display_name := none, primary_email := none,
                   merged_user_ids := [] }],
    profile_attributes := [],
    identities := [],
    pending_merges := [{ id := 3, requester_id := 1, token := 42, created_at := 0,
                         expires_at := 100 }] }

/-- Counterexample to C9 as stated: attribute id 99 matches no row, yet the
call fails with Unauthorized, not NotFound. -/
theorem claim_C9_counterexample :
    dbTok.profile_attributes = [] ∧
    set_preferred_attribute dbTok 1 99 = .error .Unauthorized ∧
    set_preferred_attribute dbTok 1 99 ≠ .error .NotFound := by
  refine ⟨rfl, rfl, ?_⟩
  intro h
  rw [show set_preferred_attribute dbTok 1 99 = .error .Unauthorized from rfl] at h
  injection h with h2
  cases h2

/-- Witness for the amended C9 at a concrete state. -/
theorem claim_C9_witness :
    set_preferred_attribute dbTok 1 99 = .error .Unauthorized :=
  claim_C9_absent_attribute_unauthorized dbTok 1 99 rfl

/-- Claim C4 (amended): with a valid unexpired token whose requester is the
caller, `execute_merge_with_token` fails with the same-account error and
mutates no Account, Profile, ProfileAttribute, ExternalIdentity, or auth
principal — but the MergeRequest itself is consumed: its row is deleted
before the same-account check. -/
theorem claim_C4_same_user_consumes_token_only (db : DB) (caller token now : Nat)
    (m : MergeRequest) (hm : findLiveRequest db token now = some m)
    (hsame : m.requester_id = caller) :
    (execute_merge_with_token db caller token now).1 = .SameUser ∧
    (execute_merge_with_token db caller token now).2.users = db.users ∧
    (execute_merge_with_token db caller token now).2.profiles = db.profiles ∧
    (execute_merge_with_token db caller token now).2.profile_attributes =
      db.profile_attributes ∧
    (execute_merge_with_token db caller token now).2.identities = db.identities ∧
    (execute_merge_with_token db caller token now).2.auth_users = db.auth_users ∧
    (execute_merge_with_token db caller token now).2.pending_merges =
      db.pending_merges.filter (fun r => !(r.token == token)) := by
  unfold execute_merge_with_token
  rw [hm]
  dsimp only
  rw [if_pos hsame]
  exact ⟨rfl, rfl, rfl, rfl, rfl, rfl, rfl⟩

/-- Counterexample to C4 as stated: requester 1 presents its own valid
token 42; the call answers the same-account error yet the MergeRequest row
is deleted, so the call did mutate a MergeRequest row. -/
theorem claim_C4_counterexample :
    (execute_merge_with_token dbTok 1 42 0).1 = .SameUser ∧
    dbTok.pending_merges ≠ [] ∧
    (execute_merge_with_token dbTok 1 42 0).2.pending_merges = [] := by
  refine ⟨rfl, ?_, rfl⟩
  intro h
  cases h

/-- Witness for the amended C4 at a concrete state. -/
theorem claim_C4_witness :
    (execute_merge_with_token dbTok 1 42 0).1 = .SameUser ∧
    (execute_merge_with_token dbTok 1 42 0).2.users = dbTok.users ∧
    (execute_merge_with_token dbTok 1 42 0).2.profiles = dbTok.profiles ∧
    (execute_merge_with_token dbTok 1 42 0).2.profile_attributes =
      dbTok.profile_attributes ∧
    (execute_merge_with_token dbTok 1 42 0).2.identities = dbTok.identities ∧
    (execute_merge_with_token dbTok 1 42 0).2.auth_users = dbTok.auth_users ∧
    (execute_merge_with_token dbTok 1 42 0).2.pending_merges =
      dbTok.pending_merges.filter (fun r => !(r.token == 42)) :=
  claim_C4_same_user_consumes_token_only dbTok 1 42 0
    { id := 3, requester_id := 1, token := 42, created_at := 0, expires_at := 100 } rfl rfl

/-- Claim C3: `execute_merge_with_token` is single-use.  A missing or
expired token yields NotFound with the state unchanged; a found token is
deleted before the same-account check and before the merge, so after the
first call no pending request carries the token and a second call with it
— by any caller, at any time, whatever the first call returned — yields
NotFound and changes nothing. -/
theorem claim_C3_token_single_use (db : DB) (caller token now caller2 now2 : Nat) :
    (findLiveRequest db token now = none →
      execute_merge_with_token db caller token now = (.NotFound, db)) ∧
    ∀ m, findLiveRequest db token now = some m →
      (∀ r ∈ (execute_merge_with_token db caller token now).2.pending_merges,
        r.token ≠ token) ∧
      execute_merge_with_token (execute_merge_with_token db caller token now).2
        caller2 token now2 =
        (.NotFound, (execute_merge_with_token db caller token now).2) := by
  constructor
  · intro h
    unfold execute_merge_with_token
    rw [h]
  · intro m hm
    have hnot : ∀ r ∈ (execute_merge_with_token db caller token now).2.pending_merges,
        r.token ≠ token := by
      unfold execute_merge_with_token
      rw [hm]
      dsimp only
      by_cases hs : m.requester_id = caller
      · rw [if_pos hs]
        dsimp only
        intro r hr
        have := (List.mem_filter.mp hr).2
        simpa using this
      · rw [if_neg hs]
        rcases hmg : merge_profiles_internal
            { db with pending_merges := db.pending_merges.filter fun r => !(r.token == token) }
            m.requester_id caller now with ⟨res, db2⟩
        have hsub := merge_internal_pending_subset
          { db with pending_merges := db.pending_merges.filter fun r => !(r.token == token) }
          m.requester_id caller now
        rw [hmg] at hsub
        cases res with
        | error e =>
          dsimp only
          intro r hr
          have hr1 := hsub r hr
          dsimp only at hr1
          have := (List.mem_filter.mp hr1).2
          simpa using this
        | ok r0 =>
          dsimp only
          intro r hr
          have hr1 := hsub r hr
          dsimp only at hr1
          have := (List.mem_filter.mp hr1).2
          simpa using this
    exact ⟨hnot, exec_notfound_of_no_token _ caller2 token now2 hnot⟩

/-- Witness for C3: the second call with the consumed token 42 fails with
NotFound at a concrete state. -/
theorem claim_C3_witness :
    (∀ r ∈ (execute_merge_with_token dbTok 2 42 0).2.pending_merges, r.token ≠ 42) ∧
    execute_merge_with_token (execute_merge_with_token dbTok 2 42 0).2 2 42 0 =
      (.NotFound, (execute_merge_with_token dbTok 2 42 0).2) :=
  (claim_C3_token_single_use dbTok 2 42 0 2 0).2
    { id := 3, requester_id := 1, token := 42, created_at := 0, expires_at := 100 } rfl

/-- Claim C5: `create_merge_request` supersedes: it first deletes every
pending request of the requester, then inserts a fresh one, so the
requester holds exactly one live request afterwards and it carries the
fresh token; any token the requester held before (unique to them, as the
UNIQUE constraint guarantees) subsequently fails with NotFound on
`execute_merge_with_token`. -/
theorem claim_C5_one_live_request (db : DB)
    (caller freshId freshToken now t1 caller2 now2 : Nat)
    (hown : ∀ m ∈ db.pending_merges, m.token = t1 → m.requester_id = caller)
    (hne : t1 ≠ freshToken) :
    (create_merge_request db caller freshId freshToken now).1 = freshToken ∧
    ((create_merge_request db caller freshId freshToken now).2.pending_merges.filter
      (fun m => m.requester_id == caller)).length = 1 ∧
    (∀ m ∈ (create_merge_request db caller freshId freshToken now).2.pending_merges,
      m.requester_id = caller → m.token = freshToken) ∧
    execute_merge_with_token (create_merge_request db caller freshId freshToken now).2
      caller2 t1 now2 =
      (.NotFound, (create_merge_request db caller freshId freshToken now).2) := by
  have hclear : ∀ m ∈ db.pending_merges.filter (fun m => !(m.requester_id == caller)),
      m.requester_id ≠ caller := by
    intro m hm
    have := (List.mem_filter.mp hm).2
    simpa using this
  have hmem : ∀ m ∈ (create_merge_request db caller freshId freshToken now).2.pending_merges,
      m ∈ db.pending_merges.filter (fun m => !(m.requester_id == caller)) ∨
        m = { id := freshId, requester_id := caller, token := freshToken,
              created_at := now, expires_at := now + expiryTTL } := by
    intro m hm
    unfold create_merge_request at hm
    dsimp only at hm
    rcases List.mem_append.mp hm with h | h
    · exact .inl h
    · simp only [List.mem_singleton] at h
      exact .inr h
  refine ⟨rfl, ?_, ?_, ?_⟩
  · unfold create_merge_request
    dsimp only
    rw [List.filter_append]
    have h0 : (db.pending_merges.filter (fun m => !(m.requester_id == caller))).filter
        (fun m => m.requester_id == caller) = [] := by
      rw [List.filter_eq_nil_iff]
      intro m hm
      simp [hclear m hm]
    rw [h0]
    simp
  · intro m hm _
    rcases hmem m hm with h | h
    · exact absurd ‹m.requester_id = caller› (hclear m h)
    · rw [h]
  · apply exec_notfound_of_no_token
    intro m hm
    rcases hmem m hm with h | h
    · intro ht
      exact hclear m h (hown m (List.mem_filter.mp h).1 ht)
    · rw [h]
      exact fun ht => hne ht.symm

/-- Witness for C5: after requester 1 creates a second request with token
43, the first token 42 fails with NotFound at a concrete state. -/
theorem claim_C5_witness :
    (create_merge_request dbTok 1 4 43 0).1 = 43 ∧
    ((create_merge_request dbTok 1 4 43 0).2.pending_merges.filter
      (fun m => m.requester_id == 1)).length = 1 ∧
    (∀ m ∈ (create_merge_request dbTok 1 4 43 0).2.pending_merges,
      m.requester_id = 1 → m.token = 43) ∧
    execute_merge_with_token (create_merge_request dbTok 1 4 43 0).2 2 42 5 =
      (.NotFound, (create_merge_request dbTok 1 4 43 0).2) :=
  claim_C5_one_live_request dbTok 1 4 43 0 42 2 5 (by decide) (by decide)

/-- Claim C6 (amended): a candidate claim value is treated as present iff
it is non-null and non-empty — without any whitespace trimming.  A NULL or
empty-string candidate leaves the key's rows untouched in every field an
identity supplies (id, profile, identity, key, value, provider): no row is
produced and no value overwritten. -/
theorem claim_C6_absent_candidate_no_row (db : DB) (idRow : Identity) (fp fa now : Nat)
    (k : String) (hk : k ∈ fixedKeys)
    (hc : candidateFor idRow.identity_data k = none ∨
      candidateFor idRow.identity_data k = some "") :
    keyData (sync_identity_to_profile db idRow fp fa now).profile_attributes k =
      keyData db.profile_attributes k := by
  obtain ⟨pid, hshape⟩ := sync_attrs_shape db idRow fp fa now
  rw [hshape, keyData_bootstrapAll]
  unfold upsertChain
  have hk4 : k = "display_name" ∨ k = "primary_email" ∨ k = "username" ∨ k = "avatar_url" := by
    simpa [fixedKeys] using hk
  rcases hk4 with rfl | rfl | rfl | rfl
  · have hcand : extractDisplayName idRow.identity_data = none ∨
        extractDisplayName idRow.identity_data = some "" := hc
    rw [keyData_upsert_other _ _ _ _ _ _ _ _ _ (by decide),
      keyData_upsert_other _ _ _ _ _ _ _ _ _ (by decide),
      keyData_upsert_other _ _ _ _ _ _ _ _ _ (by decide),
      upsertAttrStep_skip _ _ _ _ _ _ _ _ hcand]
  · have hcand : extractEmail idRow.identity_data = none ∨
        extractEmail idRow.identity_data = some "" := hc
    rw [keyData_upsert_other _ _ _ _ _ _ _ _ _ (by decide),
      keyData_upsert_other _ _ _ _ _ _ _ _ _ (by decide),
      upsertAttrStep_skip _ _ _ _ _ _ _ _ hcand,
      keyData_upsert_other _ _ _ _ _ _ _ _ _ (by decide)]
  · have hcand : extractUsername idRow.identity_data = none ∨
        extractUsername idRow.identity_data = some "" := hc
    rw [keyData_upsert_other _ _ _ _ _ _ _ _ _ (by decide),
      upsertAttrStep_skip _ _ _ _ _ _ _ _ hcand,
      keyData_upsert_other _ _ _ _ _ _ _ _ _ (by decide),
      keyData_upsert_other _ _ _ _ _ _ _ _ _ (by decide)]
  · have hcand : extractAvatar idRow.identity_data = none ∨
        extractAvatar idRow.identity_data = some "" := hc
    rw [upsertAttrStep_skip _ _ _ _ _ _ _ _ hcand,
      keyData_upsert_other _ _ _ _ _ _ _ _ _ (by decide),
      keyData_upsert_other _ _ _ _ _ _ _ _ _ (by decide),
      keyData_upsert_other _ _ _ _ _ _ _ _ _ (by decide)]

/-- One-account state with no attributes at all. -/
def dbC6 : DB :=
  { auth_users := [1],
    users := [{ id := 1, profile_id := some 10 }],
    profiles := [{ id := 10, display_name := none, primary_email := none,
                   merged_user_ids := [] }],
    profile_attributes := [],
    identities := [],
    pending_merges := [] }

/-- Identity event whose only claim is a whitespace-only email. -/
def idC6 : Identity :=
  { id := 5, user_id := 1, provider := "google", provider_id := "g1",
    identity_data := [("email", " ")] }

/-- Counterexample to C6 as stated: the email claim is the whitespace-only
string " " — empty after trimming — yet the sync run writes a
`primary_email` row carrying it (the code tests `!= ''` without TRIM). -/
theorem claim_C6_counterexample :
    extractEmail idC6.identity_data = some " " ∧
    (" " : String).data = [' '] ∧ (' ' : Char).isWhitespace = true ∧
    dbC6.profile_attributes = [] ∧
    ((sync_identity_to_profile dbC6 idC6 99 100 7).profile_attributes.filter
      (fun a => a.attribute_key == "primary_email")).map (·.attribute_value) =
      [some " "] :=
  ⟨rfl, rfl, by decide, rfl, rfl⟩

/-- Identity event with a NULL username claim and an empty display name. -/
def idC6w : Identity :=
  { id := 5, user_id := 1, provider := "google", provider_id := "g1",
    identity_data := [("full_name", "")] }

/-- Witness for the amended C6: an empty-string display-name candidate
writes no display-name row. -/
theorem claim_C6_witness :
    keyData (sync_identity_to_profile dbC6 idC6w 99 100 7).profile_attributes
      "display_name" = keyData dbC6.profile_attributes "display_name" :=
  claim_C6_absent_candidate_no_row dbC6 idC6w 99 100 7 "display_name"
    (by decide) (.inr rfl)

/-- Claim C7 (amended): for a profile and fixed key with no preferred row,
the bootstrap marks exactly one row preferred: a row with the minimal
`created_at` among the profile's rows for the key — namely the first such
row in table order (`DISTINCT ON` with `ORDER BY created_at` alone), not
the lowest-id row the spec prescribes as tie-break. -/
theorem claim_C7_bootstrap_earliest_wins (attrs : List PAttr) (pid : Nat) (key : String)
    (hn : (attrs.map (·.id)).Nodup)
    (hno : hasPreferred attrs pid key = false)
    (hne : rowsFor attrs pid key ≠ []) :
    ∃ w, earliestRow (rowsFor attrs pid key) = some w ∧
      w ∈ rowsFor attrs pid key ∧
      (∀ a ∈ rowsFor attrs pid key, w.created_at ≤ a.created_at) ∧
      prefCount (bootstrapKey attrs pid key) pid key = 1 ∧
      ∀ a ∈ bootstrapKey attrs pid key, prefGroup pid key a = true → a.id = w.id := by
  obtain ⟨w, hw⟩ := earliestRow_isSome hne
  have hwmem := rowsFor_mem (earliestRow_mem hw)
  have hall := hasPreferred_false_all hno
  have hbk : bootstrapKey attrs pid key = attrs.map fun a =>
      if a.profile_id == pid && a.id == w.id then { a with is_preferred := true } else a := by
    unfold bootstrapKey
    rw [hno]
    rw [if_neg (by simp)]
    rw [hw]
  refine ⟨w, hw, earliestRow_mem hw, earliestRow_min hw, ?_, ?_⟩
  · rw [hbk]
    apply Nat.le_antisymm
    · calc (attrs.map fun a =>
            if a.profile_id == pid && a.id == w.id then { a with is_preferred := true }
            else a).countP (prefGroup pid key)
          ≤ attrs.countP (fun a => a.id == w.id) := by
            apply countP_map_le_of
            intro a ha hpa
            by_cases hcond : (a.profile_id == pid && a.id == w.id) = true
            · simp only [Bool.and_eq_true] at hcond
              exact hcond.2
            · rw [if_neg hcond] at hpa
              rw [hall a ha] at hpa
              cases hpa
        _ ≤ 1 := countP_id_le_one hn w.id
    · have himg : ({ w with is_preferred := true } : PAttr) ∈ attrs.map fun a =>
          if a.profile_id == pid && a.id == w.id then { a with is_preferred := true }
          else a := by
        have := List.mem_map_of_mem (fun a =>
          if a.profile_id == pid && a.id == w.id then { a with is_preferred := true }
          else a) hwmem.1
        dsimp only at this
        rwa [if_pos (by simp [hwmem.2.1])] at this
      apply one_le_countP_of_mem himg
      unfold prefGroup
      simp [hwmem.2.1, hwmem.2.2]
  · rw [hbk]
    intro a ha hpa
    rcases List.mem_map.mp ha with ⟨s, hs, rfl⟩
    by_cases hcond : (s.profile_id == pid && s.id == w.id) = true
    · rw [if_pos hcond]
      simp only [Bool.and_eq_true, beq_iff_eq] at hcond
      exact hcond.2
    · rw [if_neg hcond] at hpa
      rw [hall s hs] at hpa
      cases hpa

/-- Two-row username state with a `created_at` tie: ids 2 then 1 in table
order, both created at time 5, neither preferred. -/
def dbC7 : DB :=
  { auth_users := [1],
    users := [{ id := 1, profile_id := some 10 }],
    profiles := [{ id := 10, display_name := none, primary_email := none,
                   merged_user_ids := [] }],
    profile_attributes :=
      [{ id := 2, profile_id := 10, identity_id := some 7, attribute_key := "username",
         attribute_value := some "a", source_provider := some "google",
         is_preferred := false, created_at := 5, updated_at := 5 },
       { id := 1, profile_id := 10, identity_id := some 8, attribute_key := "username",
         attribute_value := some "b", source_provider := some "github",
         is_preferred := false, created_at := 5, updated_at := 5 }],
    identities := [],
    pending_merges := [] }

/-- Claim-free identity event: no claims, so the sync run only executes the
bootstrap and aggregate steps. -/
def idC7 : Identity :=
  { id := 9, user_id := 1, provider := "google", provider_id := "g2", identity_data := [] }

/-- Counterexample to C7 as stated: with a `created_at` tie (both 5) the
sync run's bootstrap prefers the row that comes first in table order
(id 2), not the row with the lowest id (id 1). -/
theorem claim_C7_counterexample :
    dbC7.profile_attributes.map (fun a => (a.id, a.created_at, a.is_preferred)) =
      [(2, 5, false), (1, 5, false)] ∧
    ((sync_identity_to_profile dbC7 idC7 99 100 7).profile_attributes.filter
      (fun a => a.is_preferred)).map (·.id) = [2] :=
  ⟨rfl, rfl⟩

/-- Witness for the amended C7 at the tied two-row state. -/
theorem claim_C7_witness :
    ∃ w, earliestRow (rowsFor dbC7.profile_attributes 10 "username") = some w ∧
      w ∈ rowsFor dbC7.profile_attributes 10 "username" ∧
      (∀ a ∈ rowsFor dbC7.profile_attributes 10 "username",
        w.created_at ≤ a.created_at) ∧
      prefCount (bootstrapKey dbC7.profile_attributes 10 "username") 10 "username" = 1 ∧
      ∀ a ∈ bootstrapKey dbC7.profile_attributes 10 "username",
        prefGroup 10 "username" a = true → a.id = w.id :=
  claim_C7_bootstrap_earliest_wins dbC7.profile_attributes 10 "username"
    (by decide) (by decide) (by decide)

/-- Claim C8: for an existing target attribute, `set_preferred_attribute`
fails with Unauthorized when no users row of the caller resolves to the
attribute's profile; otherwise it succeeds, leaving exactly one preferred
row in the attribute's `(profile_id, attribute_key)` group — the target —
with every other group's count, every row outside the group, and all
non-profile tables untouched, and writes the value through to the profile
aggregate for the `display_name` / `primary_email` keys only.  The call is
one atomic transition of the embedding, so no state with zero or two
preferred rows in the group is reachable. -/
theorem claim_C8_preference_control (db : DB) (caller attr_id : Nat) {a : PAttr}
    (hfind : db.profile_attributes.find? (fun r => r.id == attr_id) = some a)
    (hn : (db.profile_attributes.map (·.id)).Nodup) :
    ((∀ u ∈ db.users, ¬(u.id = caller ∧ u.profile_id = some a.profile_id)) →
      set_preferred_attribute db caller attr_id = .error .Unauthorized) ∧
    ((∃ u ∈ db.users, u.id = caller ∧ u.profile_id = some a.profile_id) →
      ∃ db', set_preferred_attribute db caller attr_id = .ok db' ∧
        prefCount db'.profile_attributes a.profile_id a.attribute_key = 1 ∧
        (∀ r ∈ db'.profile_attributes,
          prefGroup a.profile_id a.attribute_key r = true → r.id = attr_id) ∧
        (∀ pid' key', ¬(pid' = a.profile_id ∧ key' = a.attribute_key) →
          prefCount db'.profile_attributes pid' key' =
            prefCount db.profile_attributes pid' key') ∧
        (∀ r ∈ db.profile_attributes,
          ¬(r.profile_id = a.profile_id ∧ r.attribute_key = a.attribute_key) →
          r ∈ db'.profile_attributes) ∧
        db'.profiles = (db.profiles.map fun p =>
          if p.id == a.profile_id then
            { p with
              display_name :=
                if a.attribute_key == "display_name" then a.attribute_value
                else p.display_name,
              primary_email :=
                if a.attribute_key == "primary_email" then a.attribute_value
                else p.primary_email }
          else p) ∧
        db'.users = db.users ∧ db'.identities = db.identities ∧
        db'.auth_users = db.auth_users ∧ db'.pending_merges = db.pending_merges) := by
  constructor
  · intro h
    have hauth : (db.users.any fun u =>
        u.id == caller && u.profile_id == some a.profile_id) = false := by
      rw [List.any_eq_false]
      intro u hu hc
      simp only [Bool.and_eq_true, beq_iff_eq] at hc
      exact h u hu ⟨hc.1, by
        have := hc.2
        simpa using this⟩
    simp only [set_preferred_attribute, hfind]
    rw [if_neg (by simp [hauth])]
  · intro ⟨u, hu, h1, h2⟩
    have hauth : (db.users.any fun r =>
        r.id == caller && r.profile_id == some a.profile_id) = true :=
      List.any_eq_true.mpr ⟨u, hu, by simp [h1, h2]⟩
    have heval : set_preferred_attribute db caller attr_id =
        .ok (applyPreference db a attr_id) := by
      simp only [set_preferred_attribute, hfind]
      rw [if_pos hauth]
    exact ⟨applyPreference db a attr_id, heval,
      set_preferred_post db caller attr_id hfind hn heval⟩

/-- Witness for C8: at the two-account state, a stranger (account 5) is
refused and the owner (account 1) succeeds. -/
theorem claim_C8_witness :
    set_preferred_attribute dbC2 5 1 = .error .Unauthorized ∧
    ∃ db', set_preferred_attribute dbC2 1 1 = .ok db' := by
  constructor
  · exact (claim_C8_preference_control dbC2 5 1 rfl (by decide)).1 (by decide)
  · obtain ⟨db', hok, _⟩ := (claim_C8_preference_control dbC2 1 1 rfl (by decide)).2
      ⟨{ id := 1, profile_id := some 10 }, by decide, rfl, rfl⟩
    exact ⟨db', hok⟩

/-- Claim C1 (amended): a successful `merge_profiles_internal(target,
source)` on accounts with distinct non-null profiles reports success with
the moved/merged counts; afterwards the source account (both the users row
and the auth principal) and the source profile no longer exist; every
identity formerly owned by the source is owned by the target; every
attribute formerly under the source profile still exists (same id) under
the target profile with `is_preferred = FALSE` (the trigger replay of the
identity move may refresh its value first); the target profile's
`merged_user_ids` gains the source account id exactly once; and — against
the claim's last conjunct — an attribute key with no rows under the target
profile and no candidate claim on the moved identities ends with zero (not
exactly one) preferred rows there: the attribute move itself re-runs no
preference bootstrap. -/
theorem claim_C1_merge_postconditions (db : DB) (target source now : Nat)
    (tpid spid : Nat) (tp : Profile)
    (hts : target ≠ source)
    (ht : (db.users.find? (fun u => u.id == target)).bind (·.profile_id) = some tpid)
    (hs : (db.users.find? (fun u => u.id == source)).bind (·.profile_id) = some spid)
    (hpp : tpid ≠ spid)
    (hnp : (db.profiles.map (·.id)).Nodup)
    (htp : tp ∈ db.profiles) (htpid : tp.id = tpid)
    (hnotin : source ∉ tp.merged_user_ids) :
    (merge_profiles_internal db target source now).1 =
      .ok { target_profile_id := tpid, source_profile_deleted := spid,
            attributes_merged :=
              (db.profile_attributes.filter (fun a => a.profile_id == spid)).length,
            identities_moved :=
              (db.identities.filter (fun i => i.user_id == source)).length,
            source_user_deleted := source } ∧
    (∀ u ∈ (merge_profiles_internal db target source now).2.users, u.id ≠ source) ∧
    source ∉ (merge_profiles_internal db target source now).2.auth_users ∧
    (∀ p ∈ (merge_profiles_internal db target source now).2.profiles, p.id ≠ spid) ∧
    (∀ i ∈ db.identities, i.user_id = source →
      { i with user_id := target } ∈
        (merge_profiles_internal db target source now).2.identities) ∧
    (∀ i ∈ (merge_profiles_internal db target source now).2.identities,
      i.user_id ≠ source) ∧
    (∀ r ∈ db.profile_attributes, r.profile_id = spid →
      ∃ r' ∈ (merge_profiles_internal db target source now).2.profile_attributes,
        r'.id = r.id ∧ r'.profile_id = tpid ∧ r'.is_preferred = false) ∧
    (∀ r ∈ (merge_profiles_internal db target source now).2.profile_attributes,
      r.profile_id ≠ spid) ∧
    (∃ p ∈ (merge_profiles_internal db target source now).2.profiles, p.id = tpid) ∧
    (∀ p ∈ (merge_profiles_internal db target source now).2.profiles,
      p.id = tpid → p.merged_user_ids.count source = 1) ∧
    (∀ key, rowsFor db.profile_attributes tpid key = [] →
      (∀ i ∈ db.identities, i.user_id = source →
        candidateFor i.identity_data key = none ∨
        candidateFor i.identity_data key = some "") →
      prefCount (merge_profiles_internal db target source now).2.profile_attributes
        tpid key = 0) := by
  obtain ⟨u, hu, hup⟩ : ∃ u, db.users.find? (fun x => x.id == target) = some u ∧
      u.profile_id = some tpid := by
    cases hfu0 : db.users.find? (fun x => x.id == target) with
    | none => rw [hfu0] at ht; cases ht
    | some u => rw [hfu0] at ht; exact ⟨u, rfl, ht⟩
  have hrows : ∀ j ∈ (db.identities.filter (fun i => i.user_id == source)).map
      (fun i => { i with user_id := target }), j.user_id = target := by
    intro j hj
    rcases List.mem_map.mp hj with ⟨i, _, rfl⟩
    rfl
  have hspec := replayTrigger_spec
    ((db.identities.filter (fun i => i.user_id == source)).map
      (fun i => { i with user_id := target }))
    { db with identities := db.identities.map fun i =>
        if i.user_id == source then { i with user_id := target } else i }
    now target hrows hu hup
  have hcnt := countP_profile_replay
    ((db.identities.filter (fun i => i.user_id == source)).map
      (fun i => { i with user_id := target }))
    { db with identities := db.identities.map fun i =>
        if i.user_id == source then { i with user_id := target } else i }
    now target spid hrows hu hup hpp
  rw [countP_length_filter, countP_length_filter] at hcnt
  unfold merge_profiles_internal
  rw [if_neg hts, ht]
  dsimp only
  rw [hs]
  dsimp only
  rw [if_neg hpp]
  dsimp only
  refine ⟨?_, ?_, ?_, ?_, ?_, ?_, ?_, ?_, ?_, ?_, ?_⟩
  · rw [hcnt]
  · intro u hu
    have := (List.mem_filter.mp hu).2
    simpa using this
  · intro hmem
    have := (List.mem_filter.mp hmem).2
    simp at this
  · intro p hp
    have := (List.mem_filter.mp hp).2
    simpa using this
  · intro i hi hisrc
    apply List.mem_filter.mpr
    constructor
    · rw [(replayTrigger_frame _ _ _).1]
      have := List.mem_map_of_mem (fun j =>
        if j.user_id == source then { j with user_id := target } else j) hi
      dsimp only at this
      rw [if_pos (by simp [hisrc])] at this
      exact this
    · simp [hts]
  · intro i hi
    have := (List.mem_filter.mp hi).2
    simpa using this
  · intro r hr hrsrc
    obtain ⟨w, hw, hwid, hwpid⟩ := hspec.2.2 r.id spid ⟨r, hr, rfl, hrsrc⟩
    refine ⟨{ w with profile_id := tpid, is_preferred := false, updated_at := now },
      List.mem_filter.mpr ⟨?_, by simp [hpp]⟩, hwid, rfl, rfl⟩
    have := List.mem_map_of_mem (fun s =>
      if s.profile_id == spid then
        { s with profile_id := tpid, is_preferred := false, updated_at := now }
      else s) hw
    dsimp only at this
    rwa [if_pos (by simp [hwpid])] at this
  · intro r hr
    have := (List.mem_filter.mp hr).2
    simpa using this
  · have hmem : ((tp.id, tp.merged_user_ids) : Nat × List Nat) ∈
        (replayTrigger { db with identities := db.identities.map fun i =>
            if i.user_id == source then { i with user_id := target } else i }
          ((db.identities.filter (fun i => i.user_id == source)).map
            (fun i => { i with user_id := target })) now).profiles.map
          (fun p => (p.id, p.merged_user_ids)) := by
      rw [hspec.2.1]
      exact List.mem_map_of_mem _ htp
    rcases List.mem_map.mp hmem with ⟨q, hq, hqeq⟩
    have hq1 : q.id = tp.id := congrArg Prod.fst hqeq
    have hmm := List.mem_map_of_mem (fun p =>
      if p.id == tpid then { p with merged_user_ids := p.merged_user_ids ++ [source] }
      else p) hq
    dsimp only at hmm
    rw [if_pos (by simp [hq1, htpid])] at hmm
    exact ⟨_, List.mem_filter.mpr ⟨hmm, by simp [hq1, htpid, hpp]⟩, by simp [hq1, htpid]⟩
  · intro p hp hpid
    have hp1 := (List.mem_filter.mp hp).1
    rcases List.mem_map.mp hp1 with ⟨q, hq, rfl⟩
    have hqid : q.id = tpid := by
      revert hpid
      split <;> exact fun h => h
    have hqmem : ((q.id, q.merged_user_ids) : Nat × List Nat) ∈
        db.profiles.map (fun p => (p.id, p.merged_user_ids)) := by
      rw [← hspec.2.1]
      exact List.mem_map_of_mem _ hq
    rcases List.mem_map.mp hqmem with ⟨t, ht2, hteq⟩
    have htid : t.id = q.id := congrArg Prod.fst hteq
    have htm : t.merged_user_ids = q.merged_user_ids := congrArg Prod.snd hteq
    have http2 : t = tp := eq_of_nodup_map hnp ht2 htp
      (by rw [htid, hqid, htpid])
    have hqm : q.merged_user_ids = tp.merged_user_ids := by rw [← htm, http2]
    rw [if_pos (by simp [hqid])]
    dsimp only
    rw [List.count_append, hqm, List.count_eq_zero.mpr hnotin]
    simp
  · intro key h0 hc
    have hcand : ∀ j ∈ (db.identities.filter (fun i => i.user_id == source)).map
        (fun i => { i with user_id := target }),
        candidateFor j.identity_data key = none ∨
        candidateFor j.identity_data key = some "" := by
      intro j hj
      rcases List.mem_map.mp hj with ⟨i, hi, rfl⟩
      have hi2 := List.mem_filter.mp hi
      exact hc i hi2.1 (by simpa using hi2.2)
    have hz := replay_keyzero
      ((db.identities.filter (fun i => i.user_id == source)).map
        (fun i => { i with user_id := target }))
      { db with identities := db.identities.map fun i =>
          if i.user_id == source then { i with user_id := target } else i }
      now target hrows hu hup hcand h0
    exact move_filter_prefCount_zero _ spid tpid now key hz

/-- Two-account-merge state: target 1 (profile 10, no attributes), source 2
(profile 20) owning one preferred username row and one identity. -/
def dbC1 : DB :=
  { auth_users := [1, 2],
    users := [{ id := 1, profile_id := some 10 }, { id := 2, profile_id := some 20 }],
    profiles := [{ id := 10, display_name := none, primary_email := none,
                   merged_user_ids := [] },
                 { id := 20, display_name := none, primary_email := none,
                   merged_user_ids := [] }],
    profile_attributes :=
      [{ id := 1, profile_id := 20, identity_id := some 7, attribute_key := "username",
         attribute_value := some "bob", source_provider := some "github",
         is_preferred := true, created_at := 3, updated_at := 3 }],
    identities := [{ id := 7, user_id := 2, provider := "github", provider_id := "g",
                     identity_data := [] }],
    pending_merges := [] }

/-- Counterexample to C1 as stated: before the merge the target profile 10
has no preferred `username` row; the merge succeeds and moves the source's
username row under profile 10, but zero rows (not exactly one) are
preferred for that key afterwards — no bootstrap is re-run. -/
theorem claim_C1_counterexample :
    prefCount dbC1.profile_attributes 10 "username" = 0 ∧
    (merge_profiles_internal dbC1 1 2 50).1 =
      .ok { target_profile_id := 10, source_profile_deleted := 20,
            attributes_merged := 1, identities_moved := 1, source_user_deleted := 2 } ∧
    ((merge_profiles_internal dbC1 1 2 50).2.profile_attributes.filter
      (fun a => a.profile_id == 10 && a.attribute_key == "username")).length = 1 ∧
    prefCount (merge_profiles_internal dbC1 1 2 50).2.profile_attributes
      10 "username" = 0 :=
  ⟨rfl, rfl, rfl, rfl⟩

/-- Witness for the amended C1 at the two-account state. -/
theorem claim_C1_witness :
    (merge_profiles_internal dbC1 1 2 50).1 =
      .ok { target_profile_id := 10, source_profile_deleted := 20,
            attributes_merged :=
              (dbC1.profile_attributes.filter (fun a => a.profile_id == 20)).length,
            identities_moved :=
              (dbC1.identities.filter (fun i => i.user_id == 2)).length,
            source_user_deleted := 2 } ∧
    (∀ u ∈ (merge_profiles_internal dbC1 1 2 50).2.users, u.id ≠ 2) ∧
    2 ∉ (merge_profiles_internal dbC1 1 2 50).2.auth_users ∧
    (∀ p ∈ (merge_profiles_internal dbC1 1 2 50).2.profiles, p.id ≠ 20) ∧
    (∀ i ∈ dbC1.identities, i.user_id = 2 →
      { i with user_id := 1 } ∈ (merge_profiles_internal dbC1 1 2 50).2.identities) ∧
    (∀ i ∈ (merge_profiles_internal dbC1 1 2 50).2.identities, i.user_id ≠ 2) ∧
    (∀ r ∈ dbC1.profile_attributes, r.profile_id = 20 →
      ∃ r' ∈ (merge_profiles_internal dbC1 1 2 50).2.profile_attributes,
        r'.id = r.id ∧ r'.profile_id = 10 ∧ r'.is_preferred = false) ∧
    (∀ r ∈ (merge_profiles_internal dbC1 1 2 50).2.profile_attributes,
      r.profile_id ≠ 20) ∧
    (∃ p ∈ (merge_profiles_internal dbC1 1 2 50).2.profiles, p.id = 10) ∧
    (∀ p ∈ (merge_profiles_internal dbC1 1 2 50).2.profiles,
      p.id = 10 → p.merged_user_ids.count 2 = 1) ∧
    (∀ key, rowsFor dbC1.profile_attributes 10 key = [] →
      (∀ i ∈ dbC1.identities, i.user_id = 2 →
        candidateFor i.identity_data key = none ∨
        candidateFor i.identity_data key = some "") →
      prefCount (merge_profiles_internal dbC1 1 2 50).2.profile_attributes 10 key = 0) :=
  claim_C1_merge_postconditions dbC1 1 2 50 10 20
    { id := 10, display_name := none, primary_email := none, merged_user_ids := [] }
    (by decide) rfl rfl (by decide) (by decide) (by decide) rfl (by decide)

end Nomen
